import Mathlib

/-! # Vertical Pod Autoscaler: recommendation annotations and the recommendation provider

A shallow embedding of

* `pkg/utils/annotations/recommendations.go`
* `pkg/utils/annotations/recommendation_gate.go` (namespace `Gate`)
* `pkg/admission-controller/resource/pod/recommendation/recommendation_provider.go`

Conventions of the embedding.

* A Go map is an association list (`GoMap`).  The order of the list is the order in
  which a `range` loop visits the entries; theorems quantify over all lists, hence
  over every visiting order.  A map that may be `nil` is an `Option` of a `GoMap`.
* A Go panic (`resource.MustParse` on a malformed string, a write to a `nil` map, a
  `nil` pointer dereference) is the result `none` of the embedded function.
* Quantities are an arbitrary type `Q`; the parser of `resource.MustParse` is a
  parameter `String → Option Q`.  Where a quantity is computed with (the limit
  calculator), it is a natural number of milli-units.
-/

set_option autoImplicit false

namespace VPA

/-! ## Go maps -/

/-- A Go map as an association list; the list order is the `range` order. -/
abbrev GoMap (K V : Type) := List (K × V)

namespace GoMap

variable {K V : Type} [DecidableEq K]

/-- The Go expression `v, ok := m[k]`: the value stored under `k`, if any. -/
def lookup : GoMap K V → K → Option V
  | [], _ => none
  | (k', v) :: rest, k => if k' = k then some v else lookup rest k

/-- The Go statement `m[k] = v`: overwrite in place, or add a new entry. -/
def insert : GoMap K V → K → V → GoMap K V
  | [], k, v => [(k, v)]
  | (k', v') :: rest, k, v => if k' = k then (k, v) :: rest else (k', v') :: insert rest k v

/-- The Go statement `delete(m, k)`. -/
def erase : GoMap K V → K → GoMap K V
  | [], _ => []
  | (k', v') :: rest, k => if k' = k then erase rest k else (k', v') :: erase rest k

end GoMap

/-! ## `recommendations.go` -/

/-- Go type `apiv1.ResourceName`, a string type. -/
abbrev ResourceName := String

/-- Constant `apiv1.ResourceCPU`. -/
def ResourceCPU : ResourceName := "cpu"

/-- Constant `apiv1.ResourceMemory`. -/
def ResourceMemory : ResourceName := "memory"

/-- The character class `[a-z0-9-]` of `recommendRegex`. -/
def isContainerChar (c : Char) : Bool :=
  ('a'.toNat ≤ c.toNat && c.toNat ≤ 'z'.toNat) ||
  ('0'.toNat ≤ c.toNat && c.toNat ≤ '9'.toNat) || c.toNat == '-'.toNat

/-- The regex atom `.` (no `s` flag): any character except a line feed. -/
def isAnyChar (c : Char) : Bool := c.toNat != 10

/-- Match a literal text at the head of the input; returns the rest. -/
def matchLiteral : List Char → List Char → Option (List Char)
  | [], s => some s
  | _ :: _, [] => none
  | l :: lit, c :: s => if l = c then matchLiteral lit s else none

/-- The alternation `(cpu|memory)` followed by `$`: the input must be exactly one of
the two words (tried in that order); returns capture group 2. -/
def matchResource (s : List Char) : Option ResourceName :=
  if s = "cpu".data then some "cpu"
  else if s = "memory".data then some "memory"
  else none

/-- The part of `recommendRegex` after capture group 1,
`.recommendations.com/(cpu|memory)$`, matched at the head of the input; both dots
are unescaped in the source and match any character. Returns capture group 2. -/
def matchTail : List Char → Option ResourceName
  | [] => none
  | x :: s =>
    if isAnyChar x then
      match matchLiteral "recommendations".data s with
      | some (y :: s') =>
        if isAnyChar y then
          match matchLiteral "com/".data s' with
          | some r => matchResource r
          | none => none
        else none
      | _ => none
    else none

/-- One attempt of `recommendRegex` starting at the head of the input: the greedy
`[a-z0-9-]+` first tries to take one more character and backtracks to the shorter
run when the rest fails. Returns capture groups 1 and 2. -/
def matchHere : List Char → Option (List Char × ResourceName)
  | [] => none
  | c :: s =>
    if isContainerChar c then
      match matchHere s with
      | some (g1, g2) => some (c :: g1, g2)
      | none =>
        match matchTail s with
        | some g2 => some ([c], g2)
        | none => none
    else none

/-- The unanchored search of `regexp`: the leftmost start position at which
`recommendRegex` matches. -/
def searchFrom : List Char → Option (List Char × ResourceName)
  | [] => none
  | c :: s =>
    match matchHere (c :: s) with
    | some m => some m
    | none => searchFrom s

/-- The call `re.FindStringSubmatch(key)` for
`recommendRegex = ([a-z0-9-]+).recommendations.com/(cpu|memory)$`:
`none` is the `nil` result, `some (matches[1], matches[2])` otherwise. -/
def FindStringSubmatch (key : String) : Option (String × ResourceName) :=
  match searchFrom key.data with
  | some (g1, g2) => some (String.mk g1, g2)
  | none => none

/-- The call `re.MatchString(key)` for `recommendRegex`. -/
def MatchString (key : String) : Bool := (FindStringSubmatch key).isSome

/-- One iteration of the `range annotations` loop of `GetResourceRequestAnnotations`. -/
def requestedStep (requested : GoMap String (GoMap ResourceName String))
    (kv : String × String) : GoMap String (GoMap ResourceName String) :=
  match FindStringSubmatch kv.1 with
  | none => requested
  | some (container, resourceName) =>
    let requested1 :=
      match GoMap.lookup requested container with
      | some _ => requested
      | none => GoMap.insert requested container []
    GoMap.insert requested1 container
      (GoMap.insert ((GoMap.lookup requested1 container).getD []) resourceName kv.2)

/-- Function `GetResourceRequestAnnotations` of `recommendations.go`. -/
def GetResourceRequestAnnotations (annotations : GoMap String String) :
    GoMap String (GoMap ResourceName String) :=
  annotations.foldl requestedStep []

/-- Function `HasRecommendationAnnotations` of `recommendations.go`. -/
def HasRecommendationAnnotations : GoMap String String → Bool
  | [] => false
  | (key, _) :: rest => if MatchString key then true else HasRecommendationAnnotations rest

/-- The Go expression `recResourceTargets[container][resourceName]` with its `ok`
flag; indexing a missing container yields a `nil` inner map, which holds nothing. -/
def lookupOverride (recResourceTargets : GoMap String (GoMap ResourceName String))
    (container : String) (resourceName : ResourceName) : Option String :=
  match GoMap.lookup recResourceTargets container with
  | some inner => GoMap.lookup inner resourceName
  | none => none

/-! ## Data model of `recommendation_provider.go` -/

/-- Go type `core.ResourceList`, `map[ResourceName]resource.Quantity`; `none` is the
`nil` map. -/
abbrev ResourceList (Q : Type) := Option (GoMap ResourceName Q)

/-- The Go expression `v, ok := list[name]`; a `nil` map holds nothing. -/
def ResourceList.get {Q : Type} : ResourceList Q → ResourceName → Option Q
  | none, _ => none
  | some m, name => GoMap.lookup m name

/-- Go type `core.ResourceRequirements` (the fields read by the provider). -/
structure ResourceRequirements (Q : Type) where
  Limits : ResourceList Q
  Requests : ResourceList Q
  deriving DecidableEq, Repr

/-- Go type `core.Container` (the fields read by the provider). -/
structure Container (Q : Type) where
  Name : String
  Resources : ResourceRequirements Q
  deriving DecidableEq, Repr

/-- Go type `core.Pod` (the fields read by the provider); `Containers` is
`pod.Spec.Containers`. -/
structure Pod (Q : Type) where
  Name : String
  Namespace : String
  Containers : List (Container Q)
  deriving DecidableEq, Repr

/-- Go type `vpa_types.RecommendedContainerResources`. -/
structure RecommendedContainerResources (Q : Type) where
  ContainerName : String
  Target : ResourceList Q
  LowerBound : ResourceList Q
  UpperBound : ResourceList Q
  UncappedTarget : ResourceList Q
  deriving DecidableEq, Repr

/-- Go type `vpa_types.RecommendedPodResources`. -/
structure RecommendedPodResources (Q : Type) where
  ContainerRecommendations : List (RecommendedContainerResources Q)
  deriving DecidableEq, Repr

/-- Go type `core.LimitRangeItem` (resource lists only). -/
structure LimitRangeItem (Q : Type) where
  Max : ResourceList Q
  Min : ResourceList Q
  Default : ResourceList Q
  DefaultRequest : ResourceList Q
  deriving DecidableEq, Repr

/-- Go type `vpa_api_util.ContainerResources`. -/
structure ContainerResources (Q : Type) where
  Limits : ResourceList Q
  Requests : ResourceList Q
  deriving DecidableEq, Repr

/-- Go type `vpa_api_util.ContainerToAnnotationsMap`, `map[string][]string`; `none`
is the `nil` map. -/
abbrev ContainerToAnnotationsMap := Option (GoMap String (List String))

/-- Go type `vpa_types.ContainerControlledValues` with its two constants. -/
inductive ContainerControlledValues where
  | RequestsAndLimits
  | RequestsOnly
  deriving DecidableEq, Repr

/-- Go type `vpa_types.UpdateMode`, a string type. -/
abbrev UpdateMode := String

/-- Modelled from the spec: constant `vpa_types.UpdateModeOff`, declared in package
`pkg/apis`: the update mode `Off`. -/
def UpdateModeOff : UpdateMode := "Off"

/-- Go type `vpa_types.VerticalPodAutoscaler` (the fields read by the provider):
`UpdatePolicy` is `vpa.Spec.UpdatePolicy`, a pointer to a struct whose only field
read is the pointer `UpdateMode`; `ResourcePolicy` is `vpa.Spec.ResourcePolicy`;
`Recommendation` and `Conditions` are those of `vpa.Status`. The policy type `P` and
the condition type `C` are only handed on to the external capabilities. -/
structure VerticalPodAutoscaler (Q P C : Type) where
  Annotations : GoMap String String
  UpdatePolicy : Option (Option UpdateMode)
  ResourcePolicy : Option P
  Recommendation : Option (RecommendedPodResources Q)
  Conditions : C

/-- The functions of package `vpa_api_util` and of `resource` that the provider
calls and whose code is outside this development, taken as parameters:
`resource.MustParse` (`none` is its panic), `GetContainerControlledValues` and
`GetProportionalLimit` (which returns the limits, `nil` or not, and the notes). -/
structure Util (Q P : Type) where
  MustParse : String → Option Q
  GetContainerControlledValues : String → Option P → ContainerControlledValues
  GetProportionalLimit :
    ResourceList Q → ResourceList Q → ResourceList Q → ResourceList Q →
      ResourceList Q × List String

/-- Go type `recommendationProvider`: the two capabilities it holds.
`limitsRangeCalculator` is `GetContainerLimitRangeItem(namespace)` and returns the
item pointer and the error; `recommendationProcessor` is `Apply` and returns the
recommendation pointer, the annotations and the error. Errors are their messages. -/
structure recommendationProvider (Q P C : Type) where
  limitsRangeCalculator : String → Option (LimitRangeItem Q) × Option String
  recommendationProcessor :
    RecommendedPodResources Q → Option P → C → Pod Q →
      Option (RecommendedPodResources Q) × ContainerToAnnotationsMap × Option String

/-! ## `recommendation_provider.go` -/

section Provider

variable {Q P C : Type}

/-- Modelled from the spec: `vpa_api_util.GetRecommendationForContainer`, whose code
is in package `pkg/utils/vpa`: the lookup of a container recommendation by container
name, first match wins; `none` is the `nil` result. -/
def GetRecommendationForContainer (containerName : String)
    (recommendation : RecommendedPodResources Q) : Option (RecommendedContainerResources Q) :=
  recommendation.ContainerRecommendations.find? (fun r => decide (r.ContainerName = containerName))

/-- Function `findOriginalContainerRequest`, on the list `pod.Spec.Containers`: the
requests of the first container of that name, `nil` when there is none. -/
def findOriginalContainerRequest : List (Container Q) → String → ResourceList Q
  | [], _ => none
  | container :: rest, containerName =>
    if container.Name = containerName then container.Resources.Requests
    else findOriginalContainerRequest rest containerName

/-- The inner loop of `recommendedResourceRequestAmend`,
`for resourceName, origValue := range container.Target`: the first list is what is
left to visit of the entries the target had when the loop began, the map is the
target as amended so far. `override resourceName` is the Go expression
`recResourceTargets[container.ContainerName][resourceName]` with its `ok` flag. -/
def amendTarget (MustParse : String → Option Q) (override : ResourceName → Option String)
    (originalContainerRequests : ResourceList Q) :
    List (ResourceName × Q) → GoMap ResourceName Q → Option (GoMap ResourceName Q)
  | [], target => some target
  | (resourceName, _) :: rest, target =>
    match override resourceName with
    | some value =>
      match MustParse value with
      | some q =>
        amendTarget MustParse override originalContainerRequests rest
          (GoMap.insert target resourceName q)
      | none => none
    | none =>
      match originalContainerRequests.get resourceName with
      | some originalValue =>
        amendTarget MustParse override originalContainerRequests rest
          (GoMap.insert target resourceName originalValue)
      | none =>
        amendTarget MustParse override originalContainerRequests rest
          (GoMap.erase target resourceName)

/-- The body of the outer loop of `recommendedResourceRequestAmend` for one container
recommendation; ranging over a `nil` target does nothing. -/
def amendContainer (MustParse : String → Option Q)
    (recResourceTargets : GoMap String (GoMap ResourceName String)) (pod : Pod Q)
    (container : RecommendedContainerResources Q) : Option (RecommendedContainerResources Q) :=
  match container.Target with
  | none => some container
  | some target =>
    match amendTarget MustParse (lookupOverride recResourceTargets container.ContainerName)
        (findOriginalContainerRequest pod.Containers container.ContainerName) target target with
    | some target1 => some { container with Target := some target1 }
    | none => none

/-- The outer loop of `recommendedResourceRequestAmend`. -/
def amendContainers (MustParse : String → Option Q)
    (recResourceTargets : GoMap String (GoMap ResourceName String)) (pod : Pod Q) :
    List (RecommendedContainerResources Q) → Option (List (RecommendedContainerResources Q))
  | [] => some []
  | container :: rest =>
    match amendContainer MustParse recResourceTargets pod container with
    | none => none
    | some container1 =>
      match amendContainers MustParse recResourceTargets pod rest with
      | none => none
      | some rest1 => some (container1 :: rest1)

/-- Function `recommendedResourceRequestAmend`: the recommendation after the call, or
`none` when `resource.MustParse` panics. -/
def recommendedResourceRequestAmend (MustParse : String → Option Q)
    (vpaRecommendation : RecommendedPodResources Q) (pod : Pod Q)
    (annotations : GoMap String String) : Option (RecommendedPodResources Q) :=
  match amendContainers MustParse (GetResourceRequestAnnotations annotations) pod
      vpaRecommendation.ContainerRecommendations with
  | some recs => some { ContainerRecommendations := recs }
  | none => none

/-- The body of the loop of `GetContainersResources` for one container: the entry
`resources[i]` and the annotations map after the iteration; `none` is the panic of
a write to a `nil` annotations map. -/
def resolveContainer (u : Util Q P) (vpaResourcePolicy : Option P)
    (podRecommendation : RecommendedPodResources Q) (limitRange : Option (LimitRangeItem Q))
    (addAll : Bool) (container : Container Q) (annotations : ContainerToAnnotationsMap) :
    Option (ContainerResources Q × ContainerToAnnotationsMap) :=
  let recommendation := GetRecommendationForContainer container.Name podRecommendation
  if recommendation.isNone && !addAll then
    some ({ Limits := none, Requests := none }, annotations)
  else
    let requests : ResourceList Q :=
      match recommendation with
      | none => container.Resources.Requests
      | some r => r.Target
    let defaultLimit : ResourceList Q :=
      match limitRange with
      | some lr => lr.Default
      | none => some []
    match u.GetContainerControlledValues container.Name vpaResourcePolicy with
    | ContainerControlledValues.RequestsAndLimits =>
      match u.GetProportionalLimit container.Resources.Limits container.Resources.Requests
          requests defaultLimit with
      | (some proportionalLimits, limitAnnotations) =>
        if limitAnnotations.length > 0 then
          match annotations with
          | none => none
          | some m =>
            some ({ Limits := some proportionalLimits, Requests := requests },
              some (GoMap.insert m container.Name
                ((GoMap.lookup m container.Name).getD [] ++ limitAnnotations)))
        else
          some ({ Limits := some proportionalLimits, Requests := requests }, annotations)
      | (none, _) => some ({ Limits := none, Requests := requests }, annotations)
    | ContainerControlledValues.RequestsOnly =>
      some ({ Limits := none, Requests := requests }, annotations)

/-- The loop of `GetContainersResources` over `pod.Spec.Containers`. -/
def resolveContainers (u : Util Q P) (vpaResourcePolicy : Option P)
    (podRecommendation : RecommendedPodResources Q) (limitRange : Option (LimitRangeItem Q))
    (addAll : Bool) :
    List (Container Q) → ContainerToAnnotationsMap →
      Option (List (ContainerResources Q) × ContainerToAnnotationsMap)
  | [], annotations => some ([], annotations)
  | container :: rest, annotations =>
    match resolveContainer u vpaResourcePolicy podRecommendation limitRange addAll container
        annotations with
    | none => none
    | some (r, annotations1) =>
      match resolveContainers u vpaResourcePolicy podRecommendation limitRange addAll rest
          annotations1 with
      | none => none
      | some (rs, annotations2) => some (r :: rs, annotations2)

/-- Function `GetContainersResources`: the returned slice and the annotations map
after the call; `none` is a panic. -/
def GetContainersResources (u : Util Q P) (pod : Pod Q) (vpaResourcePolicy : Option P)
    (podRecommendation : RecommendedPodResources Q) (limitRange : Option (LimitRangeItem Q))
    (addAll : Bool) (annotations : ContainerToAnnotationsMap) :
    Option (List (ContainerResources Q) × ContainerToAnnotationsMap) :=
  resolveContainers u vpaResourcePolicy podRecommendation limitRange addAll pod.Containers
    annotations

/-- The three results of `GetContainersResourcesForPod`: resources (`none` is `nil`),
annotations and error. -/
abbrev PodResult (Q : Type) :=
  Option (List (ContainerResources Q)) × ContainerToAnnotationsMap × Option String

/-- The part of `GetContainersResourcesForPod` from the limit-range lookup on, given
the recommendation pointer and annotations the first part produced. -/
def resolveWithLimitRange (u : Util Q P) (p : recommendationProvider Q P C) (pod : Pod Q)
    (vpa : VerticalPodAutoscaler Q P C)
    (recommendedPodResources : Option (RecommendedPodResources Q))
    (annotations : ContainerToAnnotationsMap) : Option (PodResult Q) :=
  match p.limitsRangeCalculator pod.Namespace with
  | (_, some err) => some (none, none, some ("error getting containerLimitRange: " ++ err))
  | (containerLimitRange, none) =>
    let resourcePolicy : Option P :=
      match vpa.UpdatePolicy with
      | none => vpa.ResourcePolicy
      | some none => vpa.ResourcePolicy
      | some (some mode) => if mode ≠ UpdateModeOff then vpa.ResourcePolicy else none
    match recommendedPodResources with
    | none => none
    | some rec =>
      match GetContainersResources u pod resourcePolicy rec containerLimitRange false
          annotations with
      | none => none
      | some (containerResources, annotations1) => some (some containerResources, annotations1, none)

/-- Method `GetContainersResourcesForPod`: `none` is a panic, `some` the three
returned values. `DeepCopy` is the identity on values. -/
def GetContainersResourcesForPod (u : Util Q P) (p : recommendationProvider Q P C)
    (pod : Option (Pod Q)) (vpa : Option (VerticalPodAutoscaler Q P C)) : Option (PodResult Q) :=
  match vpa, pod with
  | none, _ => some (none, none, none)
  | _, none => some (none, none, none)
  | some vpa, some pod =>
    match vpa.Recommendation with
    | none => resolveWithLimitRange u p pod vpa (some { ContainerRecommendations := [] }) none
    | some recommendation =>
      let copiedVPARec : Option (RecommendedPodResources Q) :=
        if HasRecommendationAnnotations vpa.Annotations then
          recommendedResourceRequestAmend u.MustParse recommendation pod vpa.Annotations
        else some recommendation
      match copiedVPARec with
      | none => none
      | some copied =>
        match p.recommendationProcessor copied vpa.ResourcePolicy vpa.Conditions pod with
        | (_, annotations, some err) => some (none, annotations, some err)
        | (recommendedPodResources, annotations, none) =>
          resolveWithLimitRange u p pod vpa recommendedPodResources annotations

end Provider

/-! ## Example data -/

/-- A parser of decimal numerals (quantities counted in natural numbers), used where
an example needs a concrete `resource.MustParse`. -/
def parseDigits : List Char → Option Nat
  | [] => none
  | [c] => if c.isDigit then some (c.toNat - 48) else none
  | c :: d :: rest =>
    if c.isDigit then
      match parseDigits (d :: rest) with
      | some n => some ((c.toNat - 48) * 10 ^ (d :: rest).length + n)
      | none => none
    else none

/-- A `Util` for examples: decimal numerals as quantities, every container in mode
`RequestsAndLimits`, and a limit calculator that returns the given notes with the
original limits. -/
def exampleUtil (notes : List String) : Util Nat Unit where
  MustParse := fun s => parseDigits s.data
  GetContainerControlledValues := fun _ _ => ContainerControlledValues.RequestsAndLimits
  GetProportionalLimit := fun limits _ _ _ => (limits, notes)

/-- A pod `p` in namespace `ns` with the single container `web`, requests
`cpu: 100`, `memory: 5` and limit `cpu: 200`. -/
def examplePod : Pod Nat where
  Name := "p"
  Namespace := "ns"
  Containers :=
    [{ Name := "web",
       Resources := { Limits := some [("cpu", 200)], Requests := some [("cpu", 100), ("memory", 5)] } }]

/-- A recommendation with the target `cpu: 250` for container `web`. -/
def exampleRecommendation : RecommendedPodResources Nat where
  ContainerRecommendations :=
    [{ ContainerName := "web", Target := some [("cpu", 250)], LowerBound := none,
       UpperBound := none, UncappedTarget := none }]

section ExampleDefs

variable {Q : Type}

/-- What the inner loop of the amendment stores under a key it visits: the parsed
override when there is one, else the original request, else nothing. -/
def amendedValue (MustParse : String → Option Q) (override : ResourceName → Option String)
    (originalContainerRequests : ResourceList Q) (resourceName : ResourceName) : Option Q :=
  match override resourceName with
  | some value => MustParse value
  | none => originalContainerRequests.get resourceName

end ExampleDefs

/-- The example `resource.MustParse`: decimal numerals. -/
def exampleParse (s : String) : Option Nat := parseDigits s.data

/-- Annotations overriding the cpu request of container `web`. -/
def exampleAnnotationsCpu : GoMap String String := [("web.recommendations.com/cpu", "300")]

/-- Annotations overriding the memory request of container `web`. -/
def exampleAnnotationsMemory : GoMap String String := [("web.recommendations.com/memory", "7")]

/-- A recommendation for container `web` with the given target. -/
def exampleRecommendationWith (target : ResourceList Nat) : RecommendedPodResources Nat where
  ContainerRecommendations :=
    [{ ContainerName := "web", Target := target, LowerBound := none,
       UpperBound := none, UncappedTarget := none }]

/-- A recommendation for a container `db`, which `examplePod` does not have, with the
target `cpu: 250`. -/
def exampleRecommendationDb : RecommendedPodResources Nat where
  ContainerRecommendations :=
    [{ ContainerName := "db", Target := some [("cpu", 250)], LowerBound := none,
       UpperBound := none, UncappedTarget := none }]

/-- The Go expression `annotations[name]` on a `ContainerToAnnotationsMap`; reading a
`nil` map finds nothing. -/
def annotationsFor (annotations : ContainerToAnnotationsMap) (name : String) :
    Option (List String) :=
  match annotations with
  | none => none
  | some m => GoMap.lookup m name

/-- A pod with the two containers `a` and `b`, each requesting `cpu: 100` with the
limit `cpu: 200`. -/
def examplePodAB : Pod Nat where
  Name := "p"
  Namespace := "ns"
  Containers :=
    [{ Name := "a", Resources := { Limits := some [("cpu", 200)], Requests := some [("cpu", 100)] } },
     { Name := "b", Resources := { Limits := some [("cpu", 200)], Requests := some [("cpu", 100)] } }]

/-- A recommendation for container `a` only, with the target `cpu: 250`. -/
def exampleRecommendationA : RecommendedPodResources Nat where
  ContainerRecommendations :=
    [{ ContainerName := "a", Target := some [("cpu", 250)], LowerBound := none,
       UpperBound := none, UncappedTarget := none }]

/-- The value `GetResourceRequestAnnotations` ends up holding for a container and
resource, starting from `acc`: that of the last visited annotation whose key
`recommendRegex` resolves to this container and resource. -/
def lastOverride (container : String) (resourceName : ResourceName)
    (annotations : GoMap String String) (acc : Option String) : Option String :=
  annotations.foldl
    (fun acc kv =>
      if FindStringSubmatch kv.1 = some (container, resourceName) then some kv.2 else acc)
    acc

/-- Constant `recommendCPU = "%s.recommendations.com/cpu"`, formatted with a
container name. -/
def recommendCPU (container : String) : String := container ++ ".recommendations.com/cpu"

/-- Constant `recommendMem = "%s.recommendations.com/memory"`, formatted with a
container name. -/
def recommendMem (container : String) : String := container ++ ".recommendations.com/memory"

/-- A non-empty string over `[a-z0-9-]`. -/
def IsContainerName (c : String) : Prop :=
  c.data ≠ [] ∧ ∀ x ∈ c.data, isContainerChar x = true

/-- The anchored pattern `^[a-z0-9-]+\.recommendations\.com/(cpu|memory)$` of the
specification: the whole key is a non-empty string over `[a-z0-9-]` followed by the
literal text `.recommendations.com/` and then `cpu` or `memory`. -/
def IsRecommendKey (key : String) : Prop :=
  ∃ c, IsContainerName c ∧ (key = recommendCPU c ∨ key = recommendMem c)

/-- Annotations with the cpu and memory overrides of `container1` and an unrelated
key. -/
def exampleAnnotationsMixed : GoMap String String :=
  [("container1.recommendations.com/cpu", "100m"),
   ("container1.recommendations.com/memory", "100000000"),
   ("annotation1", "somevalue")]

/-! ## The proportional limit calculator -/

/-- Modelled from the spec: steps 1 to 3 of the Proportional Limit Calculator (§4.4)
of `vpa_api_util.GetProportionalLimit`, whose code is in package `pkg/utils/vpa`,
for one resource, with quantities counted in milli-units. The base limit is the
original limit, else the namespace default limit, else the resource is skipped; the
limit is scaled by new request over original request, multiplying before dividing,
and left unscaled when the original request is absent or zero. -/
def scaledLimit (originalLimits originalRequests newRequests defaultLimit : ResourceList Nat)
    (r : ResourceName) : Option Nat :=
  match newRequests.get r with
  | none => none
  | some newRequest =>
    let base : Option Nat :=
      match originalLimits.get r with
      | some l => some l
      | none => defaultLimit.get r
    match base with
    | none => none
    | some baseLimit =>
      match originalRequests.get r with
      | some baseRequest =>
        if baseRequest = 0 then some baseLimit else some (baseLimit * newRequest / baseRequest)
      | none => some baseLimit

/-- Modelled from the spec: the minimum half of step 4 of the Proportional Limit
Calculator (§4.4): a limit under the namespace minimum of the resource, when there
is one, is raised to it and a note is recorded. -/
def clampToMinimum (namespaceMin : ResourceList Nat) (containerName : String)
    (r : ResourceName) (scaled : Nat) : Nat × List String :=
  match namespaceMin.get r with
  | some mn =>
    if scaled < mn then (mn, [r ++ " limit capped to namespace minimum for " ++ containerName])
    else (scaled, [])
  | none => (scaled, [])

/-- Modelled from the spec: step 4 of the Proportional Limit Calculator (§4.4): a
limit over the namespace maximum of the resource, when there is one, is lowered to
it and a note is recorded; otherwise the minimum is applied. -/
def clampLimit (namespaceMax namespaceMin : ResourceList Nat) (containerName : String)
    (r : ResourceName) (scaled : Nat) : Nat × List String :=
  match namespaceMax.get r with
  | some mx =>
    if mx < scaled then (mx, [r ++ " limit capped to namespace maximum for " ++ containerName])
    else clampToMinimum namespaceMin containerName r scaled
  | none => clampToMinimum namespaceMin containerName r scaled

/-- Modelled from the spec: one round of the loop of the Proportional Limit
Calculator (§4.4) over the resources present in the new requests: step 5, the
clamped limit is emitted into the result map and its notes are appended. -/
def proportionalLimitStep (namespaceMax namespaceMin : ResourceList Nat)
    (containerName : String)
    (originalLimits originalRequests newRequests defaultLimit : ResourceList Nat)
    (acc : GoMap ResourceName Nat × List String) (e : ResourceName × Nat) :
    GoMap ResourceName Nat × List String :=
  match scaledLimit originalLimits originalRequests newRequests defaultLimit e.1 with
  | none => acc
  | some scaled =>
    (GoMap.insert acc.1 e.1 (clampLimit namespaceMax namespaceMin containerName e.1 scaled).1,
      acc.2 ++ (clampLimit namespaceMax namespaceMin containerName e.1 scaled).2)

/-- Modelled from the spec: `vpa_api_util.GetProportionalLimit`, whose code is in
package `pkg/utils/vpa`: the Proportional Limit Calculator of §4.4. Its contract
lists the four inputs `originalLimits`, `originalRequests`, `newRequests` and
`namespaceDefaultLimit`; the namespace maximum and minimum that step 4 clamps to and
the container name its notes mention are made explicit as the first three
arguments. An empty result map is returned as absent. -/
def GetProportionalLimit (namespaceMax namespaceMin : ResourceList Nat)
    (containerName : String)
    (originalLimits originalRequests newRequests defaultLimit : ResourceList Nat) :
    ResourceList Nat × List String :=
  match newRequests with
  | none => (none, [])
  | some entries =>
    match entries.foldl (proportionalLimitStep namespaceMax namespaceMin containerName
        originalLimits originalRequests newRequests defaultLimit) ([], []) with
    | ([], _) => (none, [])
    | (e :: limits, notes) => (some (e :: limits), notes)

/-- The `Util` whose limit calculator is the modelled `GetProportionalLimit` with the
given namespace bounds (`none` when the namespace sets no bound) and the container
name for its notes. -/
def specUtil {P : Type} (MustParse : String → Option Nat)
    (getContainerControlledValues : String → Option P → ContainerControlledValues)
    (namespaceMax namespaceMin : ResourceList Nat) (containerName : String) :
    Util Nat P where
  MustParse := MustParse
  GetContainerControlledValues := getContainerControlledValues
  GetProportionalLimit := GetProportionalLimit namespaceMax namespaceMin containerName

/-- A `Util` for examples in which container `a` is in mode `RequestsOnly` and every
other container in mode `RequestsAndLimits`. -/
def exampleUtilRequestsOnlyA (notes : List String) : Util Nat Unit where
  MustParse := exampleParse
  GetContainerControlledValues := fun name _ =>
    if name = "a" then ContainerControlledValues.RequestsOnly
    else ContainerControlledValues.RequestsAndLimits
  GetProportionalLimit := fun limits _ _ _ => (limits, notes)

/-- The recommendation the provider hands to the recommendation processor: the copy
of `vpa.Status.Recommendation`, amended when the VPA carries recommendation
annotations; `none` when the amendment panics. -/
def copiedRecommendation {Q P C : Type} (u : Util Q P) (pod : Pod Q)
    (vpa : VerticalPodAutoscaler Q P C) (recommendation : RecommendedPodResources Q) :
    Option (RecommendedPodResources Q) :=
  if HasRecommendationAnnotations vpa.Annotations then
    recommendedResourceRequestAmend u.MustParse recommendation pod vpa.Annotations
  else some recommendation

/-- A recommendation processor for examples whose policy is a cap on the target
values; no limit range is defined. -/
def exampleCappingProvider : recommendationProvider Nat Nat Unit where
  limitsRangeCalculator := fun _ => (none, none)
  recommendationProcessor := fun rec policy _ _ =>
    match policy with
    | none => (some rec, some [], none)
    | some cap =>
      (some { ContainerRecommendations := rec.ContainerRecommendations.map
                (fun c => { c with
                  Target := Option.map (fun m => m.map (fun e => (e.1, min e.2 cap))) c.Target }) },
        some [], none)

/-- A VPA in update mode `Off` with the given resource policy, no annotations and
the recommendation `cpu: 250` for container `web`. -/
def exampleVPAOff (policy : Option Nat) : VerticalPodAutoscaler Nat Nat Unit where
  Annotations := []
  UpdatePolicy := some (some UpdateModeOff)
  ResourcePolicy := policy
  Recommendation := some exampleRecommendation
  Conditions := ()

/-- A provider for examples whose recommendation processor fails with the message
`capping failed` and some annotations, and whose limit-range lookup fails with the
message `no lister`. -/
def exampleFailingProvider : recommendationProvider Nat Unit Unit where
  limitsRangeCalculator := fun _ => (none, some "no lister")
  recommendationProcessor := fun _ _ _ _ => (none, some [("web", ["partial"])], some "capping failed")

/-- A provider for examples whose recommendation processor succeeds and whose
limit-range lookup fails with the message `no lister`. -/
def exampleNoLimitRangeProvider : recommendationProvider Nat Unit Unit where
  limitsRangeCalculator := fun _ => (none, some "no lister")
  recommendationProcessor := fun rec _ _ _ => (some rec, some [], none)

/-- A VPA with no update policy, no resource policy, no annotations and the
recommendation `cpu: 250` for container `web`. -/
def exampleVPA : VerticalPodAutoscaler Nat Unit Unit where
  Annotations := []
  UpdatePolicy := none
  ResourcePolicy := none
  Recommendation := some exampleRecommendation
  Conditions := ()

/-- Two annotations whose keys `recommendRegex` both resolves to the cpu override of
container `web`. -/
def exampleAnnotationsColliding : GoMap String String :=
  [("web.recommendations.com/cpu", "300"), ("team.web.recommendations.com/cpu", "400")]

/-- The same two annotations, visited in the other order. -/
def exampleAnnotationsCollidingSwapped : GoMap String String :=
  [("team.web.recommendations.com/cpu", "400"), ("web.recommendations.com/cpu", "300")]

/-! ## `recommendation_gate.go` -/

namespace Gate

/-- Constant `CNatixCPU`. -/
def CNatixCPU : String := "recommendations.cloudnatix.com/cpu"

/-- Constant `CNatixMEM`. -/
def CNatixMEM : String := "recommendations.cloudnatix.com/memory"

/-- The Go expression `annotations[key]` on a `map[string]string`: the value, or the
empty string when the key is missing. -/
def index (annotations : GoMap String String) (key : String) : String :=
  (GoMap.lookup annotations key).getD ""

/-- Function `GetResourceRequestAnnotations` of `recommendation_gate.go`. -/
def GetResourceRequestAnnotations (annotations : GoMap String String) :
    GoMap ResourceName String :=
  GoMap.insert (GoMap.insert [] ResourceCPU (index annotations CNatixCPU)) ResourceMemory
    (index annotations CNatixMEM)

/-- Function `IsAnnotationsAuto`. The constant `vpa_types.UpdateModeAuto`, declared
outside these files, is the parameter `UpdateModeAuto`. -/
def IsAnnotationsAuto (UpdateModeAuto : String) (annotations : GoMap String String) : Bool :=
  let annotationValues := GetResourceRequestAnnotations annotations
  let cpuValue := (GoMap.lookup annotationValues ResourceCPU).getD ""
  let hasCPU := (GoMap.lookup annotationValues ResourceCPU).isSome
  let memValue := (GoMap.lookup annotationValues ResourceMemory).getD ""
  let hasMEM := (GoMap.lookup annotationValues ResourceMemory).isSome
  hasCPU && hasMEM && decide (cpuValue = UpdateModeAuto) && decide (memValue = UpdateModeAuto)

/-- Function `HasCloudnatixAnnotations`. -/
def HasCloudnatixAnnotations (annotations : GoMap String String) : Bool :=
  (GoMap.lookup annotations CNatixCPU).isSome || (GoMap.lookup annotations CNatixMEM).isSome

end Gate

/-- What holds of every entry of the map `GetResourceRequestAnnotations` builds: the
container key is a non-empty string over `[a-z0-9-]`, the inner map is not empty and
its resource keys are `cpu` or `memory`. -/
def RequestedEntryOk (e : String × GoMap ResourceName String) : Prop :=
  IsContainerName e.1 ∧ e.2 ≠ [] ∧ ∀ x ∈ e.2, x.1 = ResourceCPU ∨ x.1 = ResourceMemory

/-- A `Util` for examples whose container mode depends on the policy it is given:
`RequestsAndLimits` for a nil policy, `RequestsOnly` otherwise; the limit calculator
is the modelled one with no namespace bounds. -/
def exampleUtilPolicyMode : Util Nat Nat :=
  specUtil exampleParse
    (fun _ policy =>
      match policy with
      | none => ContainerControlledValues.RequestsAndLimits
      | some _ => ContainerControlledValues.RequestsOnly)
    none none "web"

/-! # Theorems -/

/-! ## Lemmas on Go maps -/

namespace GoMap

variable {K V : Type} [DecidableEq K]

theorem lookup_insert (m : GoMap K V) (k k' : K) (v : V) :
    lookup (insert m k v) k' = if k = k' then some v else lookup m k' := by
  induction m with
  | nil => simp [insert, lookup]
  | cons e rest ih =>
    obtain ⟨k0, v0⟩ := e
    by_cases h0 : k0 = k
    · subst h0
      by_cases h1 : k0 = k'
      · simp [insert, lookup, h1]
      · simp [insert, lookup, h1]
    · by_cases h1 : k0 = k'
      · subst h1
        have h2 : ¬ k = k0 := fun h => h0 h.symm
        simp [insert, lookup, h0, h2]
      · simp [insert, lookup, h0, h1, ih]

theorem lookup_erase (m : GoMap K V) (k k' : K) :
    lookup (erase m k) k' = if k = k' then none else lookup m k' := by
  induction m with
  | nil => simp [erase, lookup]
  | cons e rest ih =>
    obtain ⟨k0, v0⟩ := e
    by_cases h0 : k0 = k
    · subst h0
      by_cases h1 : k0 = k'
      · subst h1
        simpa [erase] using ih
      · simp [erase, lookup, h1, ih]
    · by_cases h1 : k0 = k'
      · subst h1
        have h2 : ¬ k = k0 := fun h => h0 h.symm
        simp [erase, lookup, h0, h2]
      · simp [erase, lookup, h0, h1, ih]

theorem mem_keys_of_lookup (m : GoMap K V) (k : K) (v : V) (h : lookup m k = some v) :
    k ∈ m.map Prod.fst := by
  induction m with
  | nil => simp [lookup] at h
  | cons e rest ih =>
    obtain ⟨k0, v0⟩ := e
    by_cases h0 : k0 = k
    · simp [h0]
    · simp only [lookup, h0, if_false] at h
      simp [ih h]

theorem lookup_eq_none_of_not_mem (m : GoMap K V) (k : K) (h : k ∉ m.map Prod.fst) :
    lookup m k = none := by
  cases hl : lookup m k with
  | none => rfl
  | some v => exact absurd (mem_keys_of_lookup m k v hl) h

end GoMap

section ProviderLemmas

variable {Q P C : Type}

theorem amendTarget_lookup (MustParse : String → Option Q)
    (override : ResourceName → Option String) (orig : ResourceList Q)
    (todo : List (ResourceName × Q)) :
    ∀ (target target1 : GoMap ResourceName Q),
      amendTarget MustParse override orig todo target = some target1 →
      ∀ r, GoMap.lookup target1 r =
        if r ∈ todo.map Prod.fst then amendedValue MustParse override orig r
        else GoMap.lookup target r := by
  induction todo with
  | nil =>
    intro target target1 h r
    simp only [amendTarget, Option.some.injEq] at h
    simp [h]
  | cons e rest ih =>
    obtain ⟨r0, v0⟩ := e
    intro target target1 h r
    have key : ∀ (m : GoMap ResourceName Q),
        amendTarget MustParse override orig rest m = some target1 →
        GoMap.lookup m r0 = amendedValue MustParse override orig r0 →
        (∀ r, r0 ≠ r → GoMap.lookup m r = GoMap.lookup target r) →
        GoMap.lookup target1 r =
          if r ∈ ((r0, v0) :: rest).map Prod.fst then amendedValue MustParse override orig r
          else GoMap.lookup target r := by
      intro m hm h0 hne
      rw [ih m target1 hm r]
      by_cases hr : r ∈ rest.map Prod.fst
      · simp [hr]
      · by_cases h1 : r0 = r
        · subst h1
          simp [hr, h0]
        · have h2 : ¬ r = r0 := fun h => h1 h.symm
          simp only [List.map_cons, List.mem_cons, h2, hr, or_self, if_false]
          exact hne r h1
    simp only [amendTarget] at h
    cases hov : override r0 with
    | some value =>
      simp only [hov] at h
      cases hp : MustParse value with
      | none => simp [hp] at h
      | some q =>
        simp only [hp] at h
        refine key _ h ?_ ?_
        · simp [GoMap.lookup_insert, amendedValue, hov, hp]
        · intro r' hr'
          simp [GoMap.lookup_insert, hr']
    | none =>
      simp only [hov] at h
      cases ho : orig.get r0 with
      | some o =>
        simp only [ho] at h
        refine key _ h ?_ ?_
        · simp [GoMap.lookup_insert, amendedValue, hov, ho]
        · intro r' hr'
          simp [GoMap.lookup_insert, hr']
      | none =>
        simp only [ho] at h
        refine key _ h ?_ ?_
        · simp [GoMap.lookup_erase, amendedValue, hov, ho]
        · intro r' hr'
          simp [GoMap.lookup_erase, hr']

theorem amendTarget_panics (MustParse : String → Option Q)
    (override : ResourceName → Option String) (orig : ResourceList Q)
    (r : ResourceName) (s : String) (hov : override r = some s) (hp : MustParse s = none)
    (todo : List (ResourceName × Q)) (hr : r ∈ todo.map Prod.fst) :
    ∀ (target : GoMap ResourceName Q), amendTarget MustParse override orig todo target = none := by
  induction todo with
  | nil => simp at hr
  | cons e rest ih =>
    obtain ⟨r0, v0⟩ := e
    intro target
    by_cases h0 : r0 = r
    · subst h0
      simp [amendTarget, hov, hp]
    · have hr1 : r ∈ rest.map Prod.fst := by
        simp only [List.map_cons, List.mem_cons] at hr
        rcases hr with h | h
        · exact absurd h.symm h0
        · exact h
      cases hov0 : override r0 with
      | some value =>
        cases hp0 : MustParse value with
        | none => simp [amendTarget, hov0, hp0]
        | some q =>
          simp only [amendTarget, hov0, hp0]
          exact ih hr1 _
      | none =>
        cases ho : orig.get r0 with
        | some o =>
          simp only [amendTarget, hov0, ho]
          exact ih hr1 _
        | none =>
          simp only [amendTarget, hov0, ho]
          exact ih hr1 _

theorem amendTarget_returns (MustParse : String → Option Q)
    (override : ResourceName → Option String) (orig : ResourceList Q)
    (todo : List (ResourceName × Q))
    (hok : ∀ r ∈ todo.map Prod.fst, ∀ s, override r = some s → (MustParse s).isSome) :
    ∀ (target : GoMap ResourceName Q),
      (amendTarget MustParse override orig todo target).isSome := by
  induction todo with
  | nil => intro target; simp [amendTarget]
  | cons e rest ih =>
    obtain ⟨r0, v0⟩ := e
    intro target
    have hrest : ∀ r ∈ rest.map Prod.fst, ∀ s, override r = some s → (MustParse s).isSome :=
      fun r hr s hs => hok r (by simp [List.mem_map] at hr ⊢; exact Or.inr hr) s hs
    cases hov : override r0 with
    | some value =>
      have h1 := hok r0 (by simp) value hov
      cases hp : MustParse value with
      | none => simp [hp] at h1
      | some q =>
        simp only [amendTarget, hov, hp]
        exact ih hrest _
    | none =>
      cases ho : orig.get r0 with
      | some o =>
        simp only [amendTarget, hov, ho]
        exact ih hrest _
      | none =>
        simp only [amendTarget, hov, ho]
        exact ih hrest _

end ProviderLemmas

section AmendLemmas

variable {Q : Type}

theorem GoMap.lookup_isSome_of_mem {K V : Type} [DecidableEq K] (m : GoMap K V) (k : K)
    (h : k ∈ m.map Prod.fst) : ∃ v, GoMap.lookup m k = some v := by
  induction m with
  | nil => simp at h
  | cons e rest ih =>
    obtain ⟨k0, v0⟩ := e
    by_cases h0 : k0 = k
    · exact ⟨v0, by simp [GoMap.lookup, h0]⟩
    · have h1 : k ∈ rest.map Prod.fst := by
        simp only [List.map_cons, List.mem_cons] at h
        rcases h with h | h
        · exact absurd h.symm h0
        · exact h
      obtain ⟨v, hv⟩ := ih h1
      exact ⟨v, by simp [GoMap.lookup, h0, hv]⟩

theorem findOriginalContainerRequest_eq_find (containers : List (Container Q)) (name : String) :
    findOriginalContainerRequest containers name =
      match containers.find? (fun c => decide (c.Name = name)) with
      | some c => c.Resources.Requests
      | none => none := by
  induction containers with
  | nil => simp [findOriginalContainerRequest]
  | cons c rest ih =>
    by_cases h : c.Name = name
    · simp [findOriginalContainerRequest, List.find?, h]
    · simp [findOriginalContainerRequest, List.find?, h, ih]

theorem amendContainer_present (MustParse : String → Option Q)
    (recResourceTargets : GoMap String (GoMap ResourceName String)) (pod : Pod Q)
    (container container1 : RecommendedContainerResources Q)
    (h : amendContainer MustParse recResourceTargets pod container = some container1)
    (r : ResourceName) (v : Q) (hkey : container.Target.get r = some v) :
    container1.Target.get r =
      amendedValue MustParse (lookupOverride recResourceTargets container.ContainerName)
        (findOriginalContainerRequest pod.Containers container.ContainerName) r := by
  unfold amendContainer at h
  cases ht : container.Target with
  | none => simp [ht, ResourceList.get] at hkey
  | some target =>
    simp only [ht] at h
    rw [ht] at hkey
    simp only [ResourceList.get] at hkey
    cases ha : amendTarget MustParse (lookupOverride recResourceTargets container.ContainerName)
        (findOriginalContainerRequest pod.Containers container.ContainerName) target target with
    | none => simp [ha] at h
    | some target1 =>
      simp only [ha, Option.some.injEq] at h
      subst h
      simp only [ResourceList.get]
      rw [amendTarget_lookup _ _ _ _ _ _ ha r]
      simp [GoMap.mem_keys_of_lookup target r v hkey]

theorem amendContainer_absent (MustParse : String → Option Q)
    (recResourceTargets : GoMap String (GoMap ResourceName String)) (pod : Pod Q)
    (container container1 : RecommendedContainerResources Q)
    (h : amendContainer MustParse recResourceTargets pod container = some container1)
    (r : ResourceName) (hkey : container.Target.get r = none) :
    container1.Target.get r = none := by
  unfold amendContainer at h
  cases ht : container.Target with
  | none =>
    simp only [ht, Option.some.injEq] at h
    subst h
    simp [ht, ResourceList.get]
  | some target =>
    simp only [ht] at h
    rw [ht] at hkey
    simp only [ResourceList.get] at hkey
    cases ha : amendTarget MustParse (lookupOverride recResourceTargets container.ContainerName)
        (findOriginalContainerRequest pod.Containers container.ContainerName) target target with
    | none => simp [ha] at h
    | some target1 =>
      simp only [ha, Option.some.injEq] at h
      subst h
      simp only [ResourceList.get]
      rw [amendTarget_lookup _ _ _ _ _ _ ha r]
      have hnot : r ∉ target.map Prod.fst := by
        intro hmem
        obtain ⟨v, hv⟩ := GoMap.lookup_isSome_of_mem target r hmem
        rw [hv] at hkey
        exact Option.noConfusion hkey
      simp only [hnot, if_false]
      exact hkey

theorem amendContainer_panics (MustParse : String → Option Q)
    (recResourceTargets : GoMap String (GoMap ResourceName String)) (pod : Pod Q)
    (container : RecommendedContainerResources Q) (r : ResourceName) (v : Q) (s : String)
    (hkey : container.Target.get r = some v)
    (hov : lookupOverride recResourceTargets container.ContainerName r = some s)
    (hp : MustParse s = none) :
    amendContainer MustParse recResourceTargets pod container = none := by
  unfold amendContainer
  cases ht : container.Target with
  | none => simp [ht, ResourceList.get] at hkey
  | some target =>
    rw [ht] at hkey
    simp only [ResourceList.get] at hkey
    simp only []
    rw [amendTarget_panics MustParse _ _ r s hov hp target
      (GoMap.mem_keys_of_lookup target r v hkey) target]

theorem amendContainers_get (MustParse : String → Option Q)
    (recResourceTargets : GoMap String (GoMap ResourceName String)) (pod : Pod Q)
    (recs : List (RecommendedContainerResources Q)) :
    ∀ (recs1 : List (RecommendedContainerResources Q)),
      amendContainers MustParse recResourceTargets pod recs = some recs1 →
      ∀ (i : Nat) (container : RecommendedContainerResources Q), recs[i]? = some container →
        ∃ container1, recs1[i]? = some container1 ∧
          amendContainer MustParse recResourceTargets pod container = some container1 := by
  induction recs with
  | nil => intro recs1 _ i container hi; simp at hi
  | cons c rest ih =>
    intro recs1 h i container hi
    simp only [amendContainers] at h
    cases hc : amendContainer MustParse recResourceTargets pod c with
    | none => simp [hc] at h
    | some c1 =>
      simp only [hc] at h
      cases hr : amendContainers MustParse recResourceTargets pod rest with
      | none => simp [hr] at h
      | some rest1 =>
        simp only [hr, Option.some.injEq] at h
        subst h
        cases i with
        | zero =>
          simp only [List.getElem?_cons_zero, Option.some.injEq] at hi
          subst hi
          exact ⟨c1, by simp, hc⟩
        | succ j =>
          simp only [List.getElem?_cons_succ] at hi
          obtain ⟨c2, h2, h3⟩ := ih rest1 hr j container hi
          exact ⟨c2, by simpa using h2, h3⟩

theorem amendContainers_panics (MustParse : String → Option Q)
    (recResourceTargets : GoMap String (GoMap ResourceName String)) (pod : Pod Q)
    (recs : List (RecommendedContainerResources Q)) :
    ∀ (i : Nat) (container : RecommendedContainerResources Q), recs[i]? = some container →
      amendContainer MustParse recResourceTargets pod container = none →
      amendContainers MustParse recResourceTargets pod recs = none := by
  induction recs with
  | nil => intro i container hi; simp at hi
  | cons c rest ih =>
    intro i container hi hnone
    cases i with
    | zero =>
      simp only [List.getElem?_cons_zero, Option.some.injEq] at hi
      subst hi
      simp [amendContainers, hnone]
    | succ j =>
      simp only [List.getElem?_cons_succ] at hi
      have hrest := ih j container hi hnone
      cases hc : amendContainer MustParse recResourceTargets pod c with
      | none => simp [amendContainers, hc]
      | some c1 => simp [amendContainers, hc, hrest]

theorem recommendedResourceRequestAmend_get (MustParse : String → Option Q)
    (rec rec1 : RecommendedPodResources Q) (pod : Pod Q) (annotations : GoMap String String)
    (h : recommendedResourceRequestAmend MustParse rec pod annotations = some rec1)
    (i : Nat) (container : RecommendedContainerResources Q)
    (hi : rec.ContainerRecommendations[i]? = some container) :
    ∃ container1, rec1.ContainerRecommendations[i]? = some container1 ∧
      amendContainer MustParse (GetResourceRequestAnnotations annotations) pod container
        = some container1 := by
  unfold recommendedResourceRequestAmend at h
  cases hc : amendContainers MustParse (GetResourceRequestAnnotations annotations) pod
      rec.ContainerRecommendations with
  | none => simp [hc] at h
  | some recs1 =>
    simp only [hc, Option.some.injEq] at h
    subst h
    exact amendContainers_get MustParse _ pod _ recs1 hc i container hi

end AmendLemmas

section AmendTotality

variable {Q : Type}

theorem amendContainer_returns (MustParse : String → Option Q)
    (recResourceTargets : GoMap String (GoMap ResourceName String)) (pod : Pod Q)
    (container : RecommendedContainerResources Q)
    (hok : ∀ r v s, container.Target.get r = some v →
      lookupOverride recResourceTargets container.ContainerName r = some s →
      (MustParse s).isSome) :
    ∃ container1, amendContainer MustParse recResourceTargets pod container = some container1 := by
  unfold amendContainer
  cases ht : container.Target with
  | none => exact ⟨container, rfl⟩
  | some target =>
    have h := amendTarget_returns MustParse
      (lookupOverride recResourceTargets container.ContainerName)
      (findOriginalContainerRequest pod.Containers container.ContainerName) target
      (by
        intro r hr s hs
        obtain ⟨v, hv⟩ := GoMap.lookup_isSome_of_mem target r hr
        exact hok r v s (by simp [ht, ResourceList.get, hv]) hs)
      target
    cases ha : amendTarget MustParse (lookupOverride recResourceTargets container.ContainerName)
      (findOriginalContainerRequest pod.Containers container.ContainerName) target target with
    | none => simp [ha] at h
    | some target1 => exact ⟨{ container with Target := some target1 }, by simp only [ha]⟩

/-- The amendment returns whenever every override string that applies to a resource
of a target parses as a quantity. -/
theorem recommendedResourceRequestAmend_returns (MustParse : String → Option Q)
    (rec : RecommendedPodResources Q) (pod : Pod Q) (annotations : GoMap String String)
    (hok : ∀ container ∈ rec.ContainerRecommendations, ∀ r v s,
      container.Target.get r = some v →
      lookupOverride (GetResourceRequestAnnotations annotations) container.ContainerName r
        = some s →
      (MustParse s).isSome) :
    ∃ rec1, recommendedResourceRequestAmend MustParse rec pod annotations = some rec1 := by
  unfold recommendedResourceRequestAmend
  have h : ∀ (recs : List (RecommendedContainerResources Q)),
      (∀ container ∈ recs, ∀ r v s, container.Target.get r = some v →
        lookupOverride (GetResourceRequestAnnotations annotations) container.ContainerName r
          = some s → (MustParse s).isSome) →
      ∃ recs1, amendContainers MustParse (GetResourceRequestAnnotations annotations) pod recs
        = some recs1 := by
    intro recs
    induction recs with
    | nil => intro _; exact ⟨[], rfl⟩
    | cons c rest ih =>
      intro hall
      obtain ⟨c1, hc1⟩ := amendContainer_returns MustParse
        (GetResourceRequestAnnotations annotations) pod c (hall c (by simp))
      obtain ⟨rest1, hrest1⟩ := ih (fun c' hc' => hall c' (by simp [hc']))
      exact ⟨c1 :: rest1, by simp [amendContainers, hc1, hrest1]⟩
  obtain ⟨recs1, hrecs1⟩ := h rec.ContainerRecommendations hok
  exact ⟨_, by rw [hrecs1]⟩

end AmendTotality

/-! ## Claims on `recommendedResourceRequestAmend` -/

section AmendClaims

variable {Q : Type}

/-- C1. When `GetResourceRequestAnnotations` holds an override string for a container
recommendation and a resource key of its target, and the string parses as a
quantity, the target value for that resource after `recommendedResourceRequestAmend`
is the parsed override, whatever the recommended value `v` and the original request
of the pod are. -/
theorem amend_override_wins (MustParse : String → Option Q)
    (rec rec1 : RecommendedPodResources Q) (pod : Pod Q) (annotations : GoMap String String)
    (i : Nat) (container : RecommendedContainerResources Q) (r : ResourceName) (v : Q)
    (s : String) (q : Q)
    (hret : recommendedResourceRequestAmend MustParse rec pod annotations = some rec1)
    (hi : rec.ContainerRecommendations[i]? = some container)
    (hkey : container.Target.get r = some v)
    (hov : lookupOverride (GetResourceRequestAnnotations annotations)
      container.ContainerName r = some s)
    (hparse : MustParse s = some q) :
    ∃ container1, rec1.ContainerRecommendations[i]? = some container1 ∧
      container1.Target.get r = some q := by
  obtain ⟨c1, h1, h2⟩ := recommendedResourceRequestAmend_get MustParse rec rec1 pod annotations
    hret i container hi
  refine ⟨c1, h1, ?_⟩
  rw [amendContainer_present MustParse _ pod container c1 h2 r v hkey]
  simp [amendedValue, hov, hparse]

/-- Witness of C1: the override `300` replaces the recommended `250` (the pod
requested `100`). -/
theorem amend_override_wins_witness :
    ∃ container1,
      (exampleRecommendationWith (some [("cpu", 300)])).ContainerRecommendations[0]?
        = some container1 ∧
      container1.Target.get "cpu" = some 300 :=
  amend_override_wins exampleParse exampleRecommendation
    (exampleRecommendationWith (some [("cpu", 300)])) examplePod exampleAnnotationsCpu 0
    { ContainerName := "web", Target := some [("cpu", 250)], LowerBound := none,
      UpperBound := none, UncappedTarget := none }
    "cpu" 250 "300" 300 (by decide) (by decide) (by decide) (by decide) (by decide)

/-- Counterexample to C3: container `web` has the recommended target `cpu: 250`, no
override annotation for cpu (the only override is for memory), and the pod requests
`cpu: 100`; after the amendment the target holds `100`, not the recommended `250`. -/
theorem amend_recommendation_not_kept :
    recommendedResourceRequestAmend exampleParse exampleRecommendation examplePod
        exampleAnnotationsMemory = some (exampleRecommendationWith (some [("cpu", 100)])) ∧
      (exampleRecommendation.ContainerRecommendations[0]?).map
        (fun c => (c.ContainerName, c.Target.get "cpu")) = some ("web", some 250) ∧
      lookupOverride (GetResourceRequestAnnotations exampleAnnotationsMemory) "web" "cpu"
        = none ∧
      ((exampleRecommendationWith (some [("cpu", 100)])).ContainerRecommendations[0]?).map
        (fun c => c.Target.get "cpu") = some (some 100) := by
  decide

/-- C3, amended. The precedence is annotation, then original pod value, then unset:
for a container recommendation and a resource with a recommended target value `v`
and no override annotation, the amended target holds what the pod's first container
of that name originally requested for that resource (nothing when it requested
nothing); so it still holds the recommended value exactly when that original
request is that same value. -/
theorem amend_keeps_recommendation_iff_original (MustParse : String → Option Q)
    (rec rec1 : RecommendedPodResources Q) (pod : Pod Q) (annotations : GoMap String String)
    (i : Nat) (container : RecommendedContainerResources Q) (r : ResourceName) (v : Q)
    (hret : recommendedResourceRequestAmend MustParse rec pod annotations = some rec1)
    (hi : rec.ContainerRecommendations[i]? = some container)
    (hkey : container.Target.get r = some v)
    (hov : lookupOverride (GetResourceRequestAnnotations annotations)
      container.ContainerName r = none) :
    ∃ container1, rec1.ContainerRecommendations[i]? = some container1 ∧
      container1.Target.get r =
        (findOriginalContainerRequest pod.Containers container.ContainerName).get r ∧
      (container1.Target.get r = some v ↔
        (findOriginalContainerRequest pod.Containers container.ContainerName).get r = some v) := by
  obtain ⟨c1, h1, h2⟩ := recommendedResourceRequestAmend_get MustParse rec rec1 pod annotations
    hret i container hi
  have h3 : c1.Target.get r =
      (findOriginalContainerRequest pod.Containers container.ContainerName).get r := by
    rw [amendContainer_present MustParse _ pod container c1 h2 r v hkey]
    simp [amendedValue, hov]
  exact ⟨c1, h1, h3, by rw [h3]⟩

/-- Witness of C3 as amended, at the input of the counterexample. -/
theorem amend_keeps_recommendation_iff_original_witness :
    ∃ container1,
      (exampleRecommendationWith (some [("cpu", 100)])).ContainerRecommendations[0]?
        = some container1 ∧
      container1.Target.get "cpu" =
        (findOriginalContainerRequest examplePod.Containers "web").get "cpu" ∧
      (container1.Target.get "cpu" = some 250 ↔
        (findOriginalContainerRequest examplePod.Containers "web").get "cpu" = some 250) :=
  amend_keeps_recommendation_iff_original exampleParse exampleRecommendation
    (exampleRecommendationWith (some [("cpu", 100)])) examplePod exampleAnnotationsMemory 0
    { ContainerName := "web", Target := some [("cpu", 250)], LowerBound := none,
      UpperBound := none, UncappedTarget := none }
    "cpu" 250 (by decide) (by decide) (by decide) (by decide)

/-- C4. For a container recommendation and a resource key of its target with no
override annotation: when the first pod container of the same name declares a
request `o` for that resource, the target value after the amendment is `o`. -/
theorem amend_uses_original_request (MustParse : String → Option Q)
    (rec rec1 : RecommendedPodResources Q) (pod : Pod Q) (annotations : GoMap String String)
    (i : Nat) (container : RecommendedContainerResources Q) (r : ResourceName) (v : Q)
    (podContainer : Container Q) (o : Q)
    (hret : recommendedResourceRequestAmend MustParse rec pod annotations = some rec1)
    (hi : rec.ContainerRecommendations[i]? = some container)
    (hkey : container.Target.get r = some v)
    (hov : lookupOverride (GetResourceRequestAnnotations annotations)
      container.ContainerName r = none)
    (hfirst : pod.Containers.find? (fun c => decide (c.Name = container.ContainerName))
      = some podContainer)
    (horig : podContainer.Resources.Requests.get r = some o) :
    ∃ container1, rec1.ContainerRecommendations[i]? = some container1 ∧
      container1.Target.get r = some o := by
  obtain ⟨c1, h1, h2⟩ := recommendedResourceRequestAmend_get MustParse rec rec1 pod annotations
    hret i container hi
  refine ⟨c1, h1, ?_⟩
  rw [amendContainer_present MustParse _ pod container c1 h2 r v hkey]
  simp [amendedValue, hov, findOriginalContainerRequest_eq_find, hfirst, horig]

/-- Witness of C4: with an override for memory only, the cpu target becomes the
pod's original `100`. -/
theorem amend_uses_original_request_witness :
    ∃ container1,
      (exampleRecommendationWith (some [("cpu", 100)])).ContainerRecommendations[0]?
        = some container1 ∧
      container1.Target.get "cpu" = some 100 :=
  amend_uses_original_request exampleParse exampleRecommendation
    (exampleRecommendationWith (some [("cpu", 100)])) examplePod exampleAnnotationsMemory 0
    { ContainerName := "web", Target := some [("cpu", 250)], LowerBound := none,
      UpperBound := none, UncappedTarget := none }
    "cpu" 250
    { Name := "web",
      Resources := { Limits := some [("cpu", 200)], Requests := some [("cpu", 100), ("memory", 5)] } }
    100 (by decide) (by decide) (by decide) (by decide) (by decide) (by decide)

/-- C5. For a container recommendation and a resource key of its target with no
override annotation and no original request (the first pod container of that name,
if there is one, declares none), the key is absent from the target after the
amendment: looking it up finds nothing, not a zero quantity. -/
theorem amend_deletes_unset (MustParse : String → Option Q)
    (rec rec1 : RecommendedPodResources Q) (pod : Pod Q) (annotations : GoMap String String)
    (i : Nat) (container : RecommendedContainerResources Q) (r : ResourceName) (v : Q)
    (hret : recommendedResourceRequestAmend MustParse rec pod annotations = some rec1)
    (hi : rec.ContainerRecommendations[i]? = some container)
    (hkey : container.Target.get r = some v)
    (hov : lookupOverride (GetResourceRequestAnnotations annotations)
      container.ContainerName r = none)
    (horig : ∀ podContainer,
      pod.Containers.find? (fun c => decide (c.Name = container.ContainerName))
        = some podContainer →
      podContainer.Resources.Requests.get r = none) :
    ∃ container1, rec1.ContainerRecommendations[i]? = some container1 ∧
      container1.Target.get r = none := by
  obtain ⟨c1, h1, h2⟩ := recommendedResourceRequestAmend_get MustParse rec rec1 pod annotations
    hret i container hi
  refine ⟨c1, h1, ?_⟩
  rw [amendContainer_present MustParse _ pod container c1 h2 r v hkey]
  simp only [amendedValue, hov, findOriginalContainerRequest_eq_find]
  cases hf : pod.Containers.find? (fun c => decide (c.Name = container.ContainerName)) with
  | none => rfl
  | some pc => exact horig pc hf

/-- Witness of C5: no pod container is named `db`, so the cpu key of its target is
removed and the target is left empty. -/
theorem amend_deletes_unset_witness :
    ∃ container1,
      ({ ContainerRecommendations :=
          [{ ContainerName := "db", Target := some [], LowerBound := none,
             UpperBound := none, UncappedTarget := none }] } :
        RecommendedPodResources Nat).ContainerRecommendations[0]? = some container1 ∧
      container1.Target.get "cpu" = none :=
  amend_deletes_unset exampleParse exampleRecommendationDb
    { ContainerRecommendations :=
        [{ ContainerName := "db", Target := some [], LowerBound := none,
           UpperBound := none, UncappedTarget := none }] }
    examplePod exampleAnnotationsCpu 0
    { ContainerName := "db", Target := some [("cpu", 250)], LowerBound := none,
      UpperBound := none, UncappedTarget := none }
    "cpu" 250 (by decide) (by decide) (by decide) (by decide) (by decide)

/-- Counterexample to C6: the target of `web` has no memory value, there is no
override annotation for memory, and the pod's container `web` requests `memory: 5`;
after the amendment the target still has no memory entry. -/
theorem amend_no_fallback_for_missing_resource :
    recommendedResourceRequestAmend exampleParse exampleRecommendation examplePod
        exampleAnnotationsCpu = some (exampleRecommendationWith (some [("cpu", 300)])) ∧
      (exampleRecommendation.ContainerRecommendations[0]?).map
        (fun c => (c.ContainerName, c.Target.get "memory")) = some ("web", none) ∧
      lookupOverride (GetResourceRequestAnnotations exampleAnnotationsCpu) "web" "memory"
        = none ∧
      (findOriginalContainerRequest examplePod.Containers "web").get "memory" = some 5 ∧
      ((exampleRecommendationWith (some [("cpu", 300)])).ContainerRecommendations[0]?).map
        (fun c => c.Target.get "memory") = some none := by
  decide

/-- C6, amended. The amendment only rewrites keys the target already has: a resource
with no recommended value in the target of a container recommendation is still
absent from that target afterwards, also when the pod's container of the same name
declares an original request for it and whatever the annotations are. -/
theorem amend_missing_resource_stays_absent (MustParse : String → Option Q)
    (rec rec1 : RecommendedPodResources Q) (pod : Pod Q) (annotations : GoMap String String)
    (i : Nat) (container : RecommendedContainerResources Q) (r : ResourceName)
    (hret : recommendedResourceRequestAmend MustParse rec pod annotations = some rec1)
    (hi : rec.ContainerRecommendations[i]? = some container)
    (hkey : container.Target.get r = none) :
    ∃ container1, rec1.ContainerRecommendations[i]? = some container1 ∧
      container1.Target.get r = none := by
  obtain ⟨c1, h1, h2⟩ := recommendedResourceRequestAmend_get MustParse rec rec1 pod annotations
    hret i container hi
  exact ⟨c1, h1, amendContainer_absent MustParse _ pod container c1 h2 r hkey⟩

/-- Witness of C6 as amended, at the input of the counterexample. -/
theorem amend_missing_resource_stays_absent_witness :
    ∃ container1,
      (exampleRecommendationWith (some [("cpu", 300)])).ContainerRecommendations[0]?
        = some container1 ∧
      container1.Target.get "memory" = none :=
  amend_missing_resource_stays_absent exampleParse exampleRecommendation
    (exampleRecommendationWith (some [("cpu", 300)])) examplePod exampleAnnotationsCpu 0
    { ContainerName := "web", Target := some [("cpu", 250)], LowerBound := none,
      UpperBound := none, UncappedTarget := none }
    "memory" (by decide) (by decide) (by decide)

end AmendClaims

/-! ## Claims on `GetContainersResources` -/

section ResolveLemmas

variable {Q P : Type}

theorem resolveContainer_skip (u : Util Q P) (policy : Option P)
    (rec : RecommendedPodResources Q) (limitRange : Option (LimitRangeItem Q))
    (container : Container Q) (annotations : ContainerToAnnotationsMap)
    (hno : GetRecommendationForContainer container.Name rec = none) :
    resolveContainer u policy rec limitRange false container annotations =
      some ({ Limits := none, Requests := none }, annotations) := by
  simp [resolveContainer, hno]

theorem resolveContainer_requests (u : Util Q P) (policy : Option P)
    (rec : RecommendedPodResources Q) (limitRange : Option (LimitRangeItem Q)) (addAll : Bool)
    (container : Container Q) (annotations annotations1 : ContainerToAnnotationsMap)
    (out : ContainerResources Q) (cr : RecommendedContainerResources Q)
    (h : resolveContainer u policy rec limitRange addAll container annotations =
      some (out, annotations1))
    (hrec : GetRecommendationForContainer container.Name rec = some cr) :
    out.Requests = cr.Target := by
  simp only [resolveContainer, hrec, Option.isNone_some, Bool.false_and, Bool.false_eq_true,
    if_false] at h
  split at h
  · split at h
    · split at h
      · split at h
        · exact Option.noConfusion h
        · simp only [Option.some.injEq, Prod.mk.injEq] at h
          rw [← h.1]
      · simp only [Option.some.injEq, Prod.mk.injEq] at h
        rw [← h.1]
    · simp only [Option.some.injEq, Prod.mk.injEq] at h
      rw [← h.1]
  · simp only [Option.some.injEq, Prod.mk.injEq] at h
    rw [← h.1]

theorem resolveContainer_returns (u : Util Q P) (policy : Option P)
    (rec : RecommendedPodResources Q) (limitRange : Option (LimitRangeItem Q)) (addAll : Bool)
    (container : Container Q) (m : GoMap String (List String)) :
    ∃ out m1, resolveContainer u policy rec limitRange addAll container (some m) =
      some (out, some m1) := by
  unfold resolveContainer
  simp only []
  split
  · exact ⟨_, _, rfl⟩
  · split
    · split
      · split
        · exact ⟨_, _, rfl⟩
        · exact ⟨_, _, rfl⟩
      · exact ⟨_, _, rfl⟩
    · exact ⟨_, _, rfl⟩

theorem resolveContainer_annotationsFor (u : Util Q P) (policy : Option P)
    (rec : RecommendedPodResources Q) (limitRange : Option (LimitRangeItem Q)) (addAll : Bool)
    (container : Container Q) (annotations annotations1 : ContainerToAnnotationsMap)
    (out : ContainerResources Q)
    (h : resolveContainer u policy rec limitRange addAll container annotations =
      some (out, annotations1))
    (name : String) (hne : container.Name ≠ name) :
    annotationsFor annotations1 name = annotationsFor annotations name := by
  unfold resolveContainer at h
  simp only [] at h
  split at h
  · simp only [Option.some.injEq, Prod.mk.injEq] at h
    rw [← h.2]
  · split at h
    · split at h
      · split at h
        · split at h
          · exact Option.noConfusion h
          · simp only [Option.some.injEq, Prod.mk.injEq] at h
            rw [← h.2]
            simp [annotationsFor, GoMap.lookup_insert, hne]
        · simp only [Option.some.injEq, Prod.mk.injEq] at h
          rw [← h.2]
      · simp only [Option.some.injEq, Prod.mk.injEq] at h
        rw [← h.2]
    · simp only [Option.some.injEq, Prod.mk.injEq] at h
      rw [← h.2]

theorem resolveContainers_returns (u : Util Q P) (policy : Option P)
    (rec : RecommendedPodResources Q) (limitRange : Option (LimitRangeItem Q)) (addAll : Bool)
    (containers : List (Container Q)) :
    ∀ (m : GoMap String (List String)),
      ∃ out m1, resolveContainers u policy rec limitRange addAll containers (some m) =
        some (out, some m1) := by
  induction containers with
  | nil => intro m; exact ⟨[], m, rfl⟩
  | cons c rest ih =>
    intro m
    obtain ⟨r, m1, h1⟩ := resolveContainer_returns u policy rec limitRange addAll c m
    obtain ⟨rs, m2, h2⟩ := ih m1
    exact ⟨r :: rs, m2, by simp [resolveContainers, h1, h2]⟩

theorem resolveContainers_get (u : Util Q P) (policy : Option P)
    (rec : RecommendedPodResources Q) (limitRange : Option (LimitRangeItem Q)) (addAll : Bool)
    (containers : List (Container Q)) :
    ∀ (annotations annotations1 : ContainerToAnnotationsMap) (out : List (ContainerResources Q)),
      resolveContainers u policy rec limitRange addAll containers annotations =
        some (out, annotations1) →
      out.length = containers.length ∧
      ∀ (i : Nat) (container : Container Q), containers[i]? = some container →
        ∃ entry a a1, out[i]? = some entry ∧
          resolveContainer u policy rec limitRange addAll container a = some (entry, a1) := by
  induction containers with
  | nil =>
    intro annotations annotations1 out h
    simp only [resolveContainers, Option.some.injEq, Prod.mk.injEq] at h
    refine ⟨by simp [← h.1], ?_⟩
    intro i container hi
    simp at hi
  | cons c rest ih =>
    intro annotations annotations1 out h
    simp only [resolveContainers] at h
    cases h1 : resolveContainer u policy rec limitRange addAll c annotations with
    | none => simp [h1] at h
    | some ra =>
      obtain ⟨r, a1⟩ := ra
      simp only [h1] at h
      cases h2 : resolveContainers u policy rec limitRange addAll rest a1 with
      | none => simp [h2] at h
      | some rsa =>
        obtain ⟨rs, a2⟩ := rsa
        simp only [h2, Option.some.injEq, Prod.mk.injEq] at h
        obtain ⟨hout, _⟩ := h
        subst hout
        obtain ⟨hlen, hget⟩ := ih a1 a2 rs h2
        refine ⟨by simp [hlen], ?_⟩
        intro i container hi
        cases i with
        | zero =>
          simp only [List.getElem?_cons_zero, Option.some.injEq] at hi
          subst hi
          exact ⟨r, annotations, a1, by simp, h1⟩
        | succ j =>
          simp only [List.getElem?_cons_succ] at hi
          obtain ⟨entry, a, a3, h3, h4⟩ := hget j container hi
          exact ⟨entry, a, a3, by simpa using h3, h4⟩

theorem resolveContainers_annotationsFor (u : Util Q P) (policy : Option P)
    (rec : RecommendedPodResources Q) (limitRange : Option (LimitRangeItem Q))
    (name : String) (hno : GetRecommendationForContainer name rec = none)
    (containers : List (Container Q)) :
    ∀ (annotations annotations1 : ContainerToAnnotationsMap) (out : List (ContainerResources Q)),
      resolveContainers u policy rec limitRange false containers annotations =
        some (out, annotations1) →
      annotationsFor annotations1 name = annotationsFor annotations name := by
  induction containers with
  | nil =>
    intro annotations annotations1 out h
    simp only [resolveContainers, Option.some.injEq, Prod.mk.injEq] at h
    rw [h.2]
  | cons c rest ih =>
    intro annotations annotations1 out h
    simp only [resolveContainers] at h
    cases h1 : resolveContainer u policy rec limitRange false c annotations with
    | none => simp [h1] at h
    | some ra =>
      obtain ⟨r, a1⟩ := ra
      simp only [h1] at h
      cases h2 : resolveContainers u policy rec limitRange false rest a1 with
      | none => simp [h2] at h
      | some rsa =>
        obtain ⟨rs, a2⟩ := rsa
        simp only [h2, Option.some.injEq, Prod.mk.injEq] at h
        obtain ⟨_, hann⟩ := h
        subst hann
        rw [ih a1 a2 rs h2]
        by_cases hname : c.Name = name
        · have hskip := resolveContainer_skip u policy rec limitRange c annotations
            (by rw [hname]; exact hno)
          rw [hskip] at h1
          simp only [Option.some.injEq, Prod.mk.injEq] at h1
          rw [← h1.2]
        · exact resolveContainer_annotationsFor u policy rec limitRange false c annotations a1 r
            h1 name hname

end ResolveLemmas

section ResolveClaims

variable {Q P : Type}

/-- Counterexample to C2: the annotations map is nil, container `a` has the
recommendation `cpu: 250`, request `cpu: 100` and limit `cpu: 200`, and the modelled
limit calculator, with the namespace maximum `cpu: 150`, returns a limit and a note;
the note is written to the nil map and the call panics: no list is returned. -/
theorem GetContainersResources_nil_annotations_panics :
    GetContainersResources
      (specUtil exampleParse
        (fun _ (_ : Option Unit) => ContainerControlledValues.RequestsAndLimits)
        (some [("cpu", 150)]) none "a")
      examplePodAB none exampleRecommendationA none false none = none := by
  decide

/-- C2, amended. `GetContainersResources` returns one entry per pod container, in
pod order, for every non-nil annotations map: given a non-nil annotations map the
call returns, and whenever it returns (also for a nil map) the list has as many
entries as the pod has containers and, at every index `i` whose container name has a
recommendation, `Requests` of entry `i` is the target of the first recommendation
with that name. -/
theorem GetContainersResources_order_and_requests (u : Util Q P) (pod : Pod Q)
    (policy : Option P) (rec : RecommendedPodResources Q)
    (limitRange : Option (LimitRangeItem Q)) (addAll : Bool)
    (annotations : ContainerToAnnotationsMap) :
    (annotations ≠ none →
      ∃ out annotations1, GetContainersResources u pod policy rec limitRange addAll annotations
        = some (out, annotations1)) ∧
    (∀ out annotations1,
      GetContainersResources u pod policy rec limitRange addAll annotations
        = some (out, annotations1) →
      out.length = pod.Containers.length ∧
      ∀ (i : Nat) (container : Container Q) (cr : RecommendedContainerResources Q),
        pod.Containers[i]? = some container →
        rec.ContainerRecommendations.find? (fun r => decide (r.ContainerName = container.Name))
          = some cr →
        ∃ entry, out[i]? = some entry ∧ entry.Requests = cr.Target) := by
  constructor
  · intro hne
    cases annotations with
    | none => exact absurd rfl hne
    | some m =>
      obtain ⟨out, m1, h⟩ := resolveContainers_returns u policy rec limitRange addAll
        pod.Containers m
      exact ⟨out, some m1, h⟩
  · intro out annotations1 h
    obtain ⟨hlen, hget⟩ := resolveContainers_get u policy rec limitRange addAll pod.Containers
      annotations annotations1 out h
    refine ⟨hlen, ?_⟩
    intro i container cr hi hrec
    obtain ⟨entry, a, a1, h1, h2⟩ := hget i container hi
    exact ⟨entry, h1,
      resolveContainer_requests u policy rec limitRange addAll container a a1 entry cr h2 hrec⟩

/-- Witness of C2 as amended: for the pod with containers `a`, `b`, a recommendation for `a`,
`addAll` set and a limit calculator that emits a note, the call returns two entries
and stores the notes in the (non-nil) annotations map. -/
theorem GetContainersResources_order_and_requests_witness :
    (∃ out annotations1,
      GetContainersResources (exampleUtil ["note"]) examplePodAB none exampleRecommendationA
        none true (some []) = some (out, annotations1)) ∧
    (([{ Limits := some [("cpu", 200)], Requests := some [("cpu", 250)] },
       { Limits := some [("cpu", 200)], Requests := some [("cpu", 100)] }] :
        List (ContainerResources Nat)).length = examplePodAB.Containers.length ∧
      ∀ (i : Nat) (container : Container Nat) (cr : RecommendedContainerResources Nat),
        examplePodAB.Containers[i]? = some container →
        exampleRecommendationA.ContainerRecommendations.find?
          (fun r => decide (r.ContainerName = container.Name)) = some cr →
        ∃ entry,
          ([{ Limits := some [("cpu", 200)], Requests := some [("cpu", 250)] },
            { Limits := some [("cpu", 200)], Requests := some [("cpu", 100)] }] :
            List (ContainerResources Nat))[i]? = some entry ∧
          entry.Requests = cr.Target) :=
  ⟨(GetContainersResources_order_and_requests (exampleUtil ["note"]) examplePodAB none
      exampleRecommendationA none true (some [])).1 (by decide),
   (GetContainersResources_order_and_requests (exampleUtil ["note"]) examplePodAB none
      exampleRecommendationA none true (some [])).2 _
      (some [("a", ["note"]), ("b", ["note"])]) (by decide)⟩

/-- C10. With `addAll = false`, whenever `GetContainersResources` returns, a
container whose name has no matching recommendation has an empty entry, `Requests`
and `Limits` both nil, and the annotations stored under its name are what they were
before the call. -/
theorem GetContainersResources_unmatched_empty (u : Util Q P) (pod : Pod Q)
    (policy : Option P) (rec : RecommendedPodResources Q)
    (limitRange : Option (LimitRangeItem Q))
    (annotations annotations1 : ContainerToAnnotationsMap) (out : List (ContainerResources Q))
    (i : Nat) (container : Container Q)
    (hret : GetContainersResources u pod policy rec limitRange false annotations
      = some (out, annotations1))
    (hi : pod.Containers[i]? = some container)
    (hno : rec.ContainerRecommendations.find?
      (fun r => decide (r.ContainerName = container.Name)) = none) :
    out[i]? = some { Limits := none, Requests := none } ∧
      annotationsFor annotations1 container.Name = annotationsFor annotations container.Name := by
  constructor
  · obtain ⟨_, hget⟩ := resolveContainers_get u policy rec limitRange false pod.Containers
      annotations annotations1 out hret
    obtain ⟨entry, a, a1, h1, h2⟩ := hget i container hi
    rw [resolveContainer_skip u policy rec limitRange container a hno] at h2
    simp only [Option.some.injEq, Prod.mk.injEq] at h2
    rw [h1, ← h2.1]
  · exact resolveContainers_annotationsFor u policy rec limitRange container.Name hno
      pod.Containers annotations annotations1 out hret

/-- Witness of C10: containers `a`, `b` with a recommendation for `a` only; the
entry of `b` is empty and nothing is stored under `b`. -/
theorem GetContainersResources_unmatched_empty_witness :
    ([{ Limits := some [("cpu", 200)], Requests := some [("cpu", 250)] },
      { Limits := none, Requests := none }] : List (ContainerResources Nat))[1]?
      = some { Limits := none, Requests := none } ∧
    annotationsFor (some [("a", ["note"])]) "b" = annotationsFor (some []) "b" :=
  GetContainersResources_unmatched_empty (exampleUtil ["note"]) examplePodAB none
    exampleRecommendationA none (some []) (some [("a", ["note"])]) _ 1
    { Name := "b", Resources := { Limits := some [("cpu", 200)], Requests := some [("cpu", 100)] } }
    (by decide) (by decide) (by decide)

end ResolveClaims

/-! ## Lemmas on `GetResourceRequestAnnotations` and `HasRecommendationAnnotations` -/

section AnnotationLemmas

theorem requestedStep_lookupOverride (requested : GoMap String (GoMap ResourceName String))
    (kv : String × String) (c : String) (r : ResourceName) :
    lookupOverride (requestedStep requested kv) c r =
      if FindStringSubmatch kv.1 = some (c, r) then some kv.2 else lookupOverride requested c r := by
  unfold requestedStep
  cases hf : FindStringSubmatch kv.1 with
  | none => simp
  | some m =>
    obtain ⟨c0, r0⟩ := m
    simp only [Option.some.injEq, Prod.mk.injEq]
    by_cases hc : c0 = c
    · subst hc
      cases hl : GoMap.lookup requested c0 with
      | none =>
        by_cases hr : r0 = r
        · simp [lookupOverride, GoMap.lookup_insert, hr]
        · simp [lookupOverride, GoMap.lookup_insert, hr, hl, GoMap.lookup]
      | some inner =>
        by_cases hr : r0 = r
        · simp [lookupOverride, GoMap.lookup_insert, hr]
        · simp [lookupOverride, GoMap.lookup_insert, hr, hl]
    · cases hl : GoMap.lookup requested c0 with
      | none => simp [lookupOverride, GoMap.lookup_insert, hc]
      | some inner => simp [lookupOverride, GoMap.lookup_insert, hc]

theorem foldl_requestedStep_lookupOverride (annotations : GoMap String String) (c : String)
    (r : ResourceName) :
    ∀ (requested : GoMap String (GoMap ResourceName String)),
      lookupOverride (annotations.foldl requestedStep requested) c r =
        lastOverride c r annotations (lookupOverride requested c r) := by
  induction annotations with
  | nil => intro requested; rfl
  | cons kv rest ih =>
    intro requested
    simp only [List.foldl_cons, lastOverride]
    rw [ih (requestedStep requested kv), requestedStep_lookupOverride]
    rfl

theorem GetResourceRequestAnnotations_lookupOverride (annotations : GoMap String String)
    (c : String) (r : ResourceName) :
    lookupOverride (GetResourceRequestAnnotations annotations) c r =
      lastOverride c r annotations none := by
  unfold GetResourceRequestAnnotations
  rw [foldl_requestedStep_lookupOverride]
  rfl

theorem lastOverride_of_no_match (c : String) (r : ResourceName)
    (annotations : GoMap String String)
    (h : ∀ kv ∈ annotations, FindStringSubmatch kv.1 ≠ some (c, r)) :
    ∀ acc, lastOverride c r annotations acc = acc := by
  induction annotations with
  | nil => intro acc; rfl
  | cons kv rest ih =>
    intro acc
    have h0 := h kv (by simp)
    have hrest := ih (fun kv' hkv' => h kv' (by simp [hkv']))
    simp only [lastOverride, List.foldl_cons, h0, if_false]
    exact hrest acc

theorem exists_match_of_lastOverride (c : String) (r : ResourceName)
    (annotations : GoMap String String) (s : String)
    (h : lastOverride c r annotations none = some s) :
    ∃ kv ∈ annotations, FindStringSubmatch kv.1 = some (c, r) := by
  by_contra hcon
  push_neg at hcon
  rw [lastOverride_of_no_match c r annotations hcon none] at h
  exact Option.noConfusion h

theorem HasRecommendationAnnotations_of_match (annotations : GoMap String String)
    (kv : String × String) (hmem : kv ∈ annotations)
    (hm : (FindStringSubmatch kv.1).isSome = true) :
    HasRecommendationAnnotations annotations = true := by
  induction annotations with
  | nil => simp at hmem
  | cons e rest ih =>
    obtain ⟨k0, v0⟩ := e
    by_cases h0 : MatchString k0 = true
    · simp [HasRecommendationAnnotations, h0]
    · simp only [List.mem_cons] at hmem
      rcases hmem with h | h
      · subst h
        exact absurd hm h0
      · simp [HasRecommendationAnnotations, h0, ih h]

theorem HasRecommendationAnnotations_of_override (annotations : GoMap String String)
    (c : String) (r : ResourceName) (s : String)
    (h : lookupOverride (GetResourceRequestAnnotations annotations) c r = some s) :
    HasRecommendationAnnotations annotations = true := by
  rw [GetResourceRequestAnnotations_lookupOverride] at h
  obtain ⟨kv, hmem, hm⟩ := exists_match_of_lastOverride c r annotations s h
  exact HasRecommendationAnnotations_of_match annotations kv hmem (by simp [hm])

end AnnotationLemmas

/-! ## Claims on `GetContainersResourcesForPod` -/

section PodClaims

variable {Q P C : Type}

/-- Counterexample to C7: the VPA recommends `cpu: 250` for container `web` and
carries the override `web.recommendations.com/cpu: abc`, which does not parse; the
call panics (result `none`): it returns no error value to its caller. -/
theorem GetContainersResourcesForPod_malformed_override_no_error :
    lookupOverride (GetResourceRequestAnnotations [("web.recommendations.com/cpu", "abc")])
        "web" "cpu" = some "abc" ∧
      (exampleUtil []).MustParse "abc" = none ∧
      GetContainersResourcesForPod (exampleUtil [])
        { limitsRangeCalculator := fun _ => (none, none),
          recommendationProcessor := fun rec _ _ _ => (some rec, some [], none) }
        (some examplePod)
        (some { Annotations := [("web.recommendations.com/cpu", "abc")],
                UpdatePolicy := none,
                ResourcePolicy := (none : Option Unit),
                Recommendation := some exampleRecommendation,
                Conditions := () }) = none := by
  refine ⟨by decide, by decide, rfl⟩

/-- C7, amended. For a non-nil pod and VPA whose status recommendation has a target
resource for which the override string that `GetResourceRequestAnnotations` holds
for that container and resource (the value of the one annotation resolving to them,
or of the one visited last when several do) does not parse as a quantity,
`GetContainersResourcesForPod` does not return: `resource.MustParse` panics inside
`recommendedResourceRequestAmend`, before the recommendation processor and the limit
range are consulted, so the malformed value is neither applied nor ignored and the
caller gets no resources, no annotations and no error value. -/
theorem GetContainersResourcesForPod_malformed_override_panics (u : Util Q P)
    (p : recommendationProvider Q P C) (pod : Pod Q) (vpa : VerticalPodAutoscaler Q P C)
    (rec : RecommendedPodResources Q) (i : Nat) (container : RecommendedContainerResources Q)
    (r : ResourceName) (v : Q) (s : String)
    (hrec : vpa.Recommendation = some rec)
    (hi : rec.ContainerRecommendations[i]? = some container)
    (hkey : container.Target.get r = some v)
    (hov : lookupOverride (GetResourceRequestAnnotations vpa.Annotations)
      container.ContainerName r = some s)
    (hparse : u.MustParse s = none) :
    GetContainersResourcesForPod u p (some pod) (some vpa) = none := by
  have hhas := HasRecommendationAnnotations_of_override vpa.Annotations container.ContainerName
    r s hov
  have hamend : recommendedResourceRequestAmend u.MustParse rec pod vpa.Annotations = none := by
    unfold recommendedResourceRequestAmend
    rw [amendContainers_panics u.MustParse _ pod rec.ContainerRecommendations i container hi
      (amendContainer_panics u.MustParse _ pod container r v s hkey hov hparse)]
  simp [GetContainersResourcesForPod, hrec, hhas, hamend]

/-- Witness of C7 as amended, at the input of the counterexample. -/
theorem GetContainersResourcesForPod_malformed_override_panics_witness :
    GetContainersResourcesForPod (exampleUtil [])
      { limitsRangeCalculator := fun _ => (none, none),
        recommendationProcessor := fun rec _ _ _ => (some rec, some [], none) }
      (some examplePod)
      (some { Annotations := [("web.recommendations.com/cpu", "abc")],
              UpdatePolicy := none,
              ResourcePolicy := (none : Option Unit),
              Recommendation := some exampleRecommendation,
              Conditions := () }) = none :=
  GetContainersResourcesForPod_malformed_override_panics (exampleUtil []) _ examplePod _
    exampleRecommendation 0
    { ContainerName := "web", Target := some [("cpu", 250)], LowerBound := none,
      UpperBound := none, UncappedTarget := none }
    "cpu" 250 "abc" rfl (by decide) (by decide) (by decide) (by decide)

/-- Why C7 speaks of the override string the resolver holds: when a malformed
annotation and a well-formed one resolve to the same container and resource, the
call panics if the malformed one is visited last and returns the request `cpu: 300`
if the well-formed one is. -/
theorem GetContainersResourcesForPod_malformed_override_shadowed :
    GetContainersResourcesForPod (exampleUtil [])
        { limitsRangeCalculator := fun _ => (none, none),
          recommendationProcessor := fun rec _ _ _ => (some rec, some [], none) }
        (some examplePod)
        (some { Annotations :=
                  [("web.recommendations.com/cpu", "abc"),
                   ("team.web.recommendations.com/cpu", "300")],
                UpdatePolicy := none,
                ResourcePolicy := (none : Option Unit),
                Recommendation := some exampleRecommendation,
                Conditions := () }) =
      some (some [{ Limits := some [("cpu", 200)], Requests := some [("cpu", 300)] }],
        some [], none) ∧
    GetContainersResourcesForPod (exampleUtil [])
        { limitsRangeCalculator := fun _ => (none, none),
          recommendationProcessor := fun rec _ _ _ => (some rec, some [], none) }
        (some examplePod)
        (some { Annotations :=
                  [("team.web.recommendations.com/cpu", "300"),
                   ("web.recommendations.com/cpu", "abc")],
                UpdatePolicy := none,
                ResourcePolicy := (none : Option Unit),
                Recommendation := some exampleRecommendation,
                Conditions := () }) = none :=
  ⟨rfl, rfl⟩

end PodClaims

/-! ## Lemmas on `recommendRegex` -/

section RegexLemmas

theorem matchLiteral_eq (lit : List Char) :
    ∀ (s rest : List Char), matchLiteral lit s = some rest → s = lit ++ rest := by
  induction lit with
  | nil => intro s rest h; simpa [matchLiteral] using h
  | cons l lit ih =>
    intro s rest h
    cases s with
    | nil => simp [matchLiteral] at h
    | cons c s =>
      by_cases hlc : l = c
      · subst hlc
        simp only [matchLiteral, if_true] at h
        simp [ih s rest h]
      · simp [matchLiteral, hlc] at h

theorem infix_of_matchTail (s : List Char) (g : ResourceName) (h : matchTail s = some g) :
    "recommendations".data <:+: s := by
  cases s with
  | nil => simp [matchTail] at h
  | cons x s =>
    simp only [matchTail] at h
    split at h
    · cases hm : matchLiteral "recommendations".data s with
      | none => simp [hm] at h
      | some rest =>
        have hs := matchLiteral_eq _ s rest hm
        exact ⟨[x], rest, by simp [hs]⟩
    · exact Option.noConfusion h

theorem infix_of_matchHere (s : List Char) :
    ∀ (m : List Char × ResourceName), matchHere s = some m → "recommendations".data <:+: s := by
  induction s with
  | nil => intro m h; simp [matchHere] at h
  | cons c s ih =>
    intro m h
    simp only [matchHere] at h
    split at h
    · cases hh : matchHere s with
      | some m1 =>
        obtain ⟨a, b, hab⟩ := ih m1 hh
        exact ⟨c :: a, b, by simp [← hab]⟩
      | none =>
        simp only [hh] at h
        cases ht : matchTail s with
        | none => simp [ht] at h
        | some g =>
          obtain ⟨a, b, hab⟩ := infix_of_matchTail s g ht
          exact ⟨c :: a, b, by simp [← hab]⟩
    · exact Option.noConfusion h

theorem infix_of_searchFrom (s : List Char) :
    ∀ (m : List Char × ResourceName), searchFrom s = some m → "recommendations".data <:+: s := by
  induction s with
  | nil => intro m h; simp [searchFrom] at h
  | cons c s ih =>
    intro m h
    simp only [searchFrom] at h
    cases hh : matchHere (c :: s) with
    | some m1 => exact infix_of_matchHere (c :: s) m1 hh
    | none =>
      simp only [hh] at h
      obtain ⟨a, b, hab⟩ := ih m h
      exact ⟨c :: a, b, by simp [← hab]⟩

theorem FindStringSubmatch_eq_none_of_unrelated (key : String)
    (h : ¬ "recommendations".data <:+: key.data) : FindStringSubmatch key = none := by
  unfold FindStringSubmatch
  cases hs : searchFrom key.data with
  | none => rfl
  | some m => exact absurd (infix_of_searchFrom key.data m hs) h

theorem matchHere_run (tail : List Char) (g : ResourceName) (htail : matchTail tail = some g)
    (hhead : matchHere tail = none) (run : List Char) (hne : run ≠ [])
    (hall : ∀ x ∈ run, isContainerChar x = true) :
    matchHere (run ++ tail) = some (run, g) := by
  induction run with
  | nil => exact absurd rfl hne
  | cons x rest ih =>
    have hx : isContainerChar x = true := hall x (by simp)
    cases rest with
    | nil => simp [matchHere, hx, hhead, htail]
    | cons y rest1 =>
      have h1 := ih (by simp) (fun z hz => hall z (by simp [hz]))
      simp only [List.cons_append] at h1
      simp only [List.cons_append]
      rw [matchHere, if_pos hx, h1]

theorem searchFrom_run (tail : List Char) (g : ResourceName) (htail : matchTail tail = some g)
    (hhead : matchHere tail = none) (run : List Char) (hne : run ≠ [])
    (hall : ∀ x ∈ run, isContainerChar x = true) :
    searchFrom (run ++ tail) = some (run, g) := by
  have h := matchHere_run tail g htail hhead run hne hall
  cases run with
  | nil => exact absurd rfl hne
  | cons x rest =>
    simp only [List.cons_append] at h
    simp [searchFrom, h]

theorem FindStringSubmatch_recommendCPU (c : String) (hc : IsContainerName c) :
    FindStringSubmatch (recommendCPU c) = some (c, "cpu") := by
  have h := searchFrom_run ".recommendations.com/cpu".data "cpu" (by decide) (by decide)
    c.data hc.1 hc.2
  simp only [FindStringSubmatch, recommendCPU, String.data_append, h]

theorem FindStringSubmatch_recommendMem (c : String) (hc : IsContainerName c) :
    FindStringSubmatch (recommendMem c) = some (c, "memory") := by
  have h := searchFrom_run ".recommendations.com/memory".data "memory" (by decide) (by decide)
    c.data hc.1 hc.2
  simp only [FindStringSubmatch, recommendMem, String.data_append, h]

theorem FindStringSubmatch_of_exact_or_unrelated (key : String)
    (hkey : IsRecommendKey key ∨ ¬ "recommendations".data <:+: key.data)
    (c : String) (r : ResourceName) :
    FindStringSubmatch key = some (c, r) ↔
      IsContainerName c ∧ ((r = "cpu" ∧ key = recommendCPU c) ∨
        (r = "memory" ∧ key = recommendMem c)) := by
  constructor
  · intro h
    rcases hkey with ⟨c1, hc1, hk | hk⟩ | hk
    · rw [hk, FindStringSubmatch_recommendCPU c1 hc1] at h
      simp only [Option.some.injEq, Prod.mk.injEq] at h
      obtain ⟨h1, h2⟩ := h
      subst h1
      exact ⟨hc1, Or.inl ⟨h2.symm, hk⟩⟩
    · rw [hk, FindStringSubmatch_recommendMem c1 hc1] at h
      simp only [Option.some.injEq, Prod.mk.injEq] at h
      obtain ⟨h1, h2⟩ := h
      subst h1
      exact ⟨hc1, Or.inr ⟨h2.symm, hk⟩⟩
    · rw [FindStringSubmatch_eq_none_of_unrelated key hk] at h
      exact Option.noConfusion h
  · rintro ⟨hc, ⟨hr, hk⟩ | ⟨hr, hk⟩⟩
    · rw [hk, hr]; exact FindStringSubmatch_recommendCPU c hc
    · rw [hk, hr]; exact FindStringSubmatch_recommendMem c hc

end RegexLemmas

/-! ## Claims on the per-container annotations -/

section AnnotationClaims

theorem dropWhile_run_append (p : Char → Bool) (run tail : List Char)
    (hall : ∀ x ∈ run, p x = true) : (run ++ tail).dropWhile p = tail.dropWhile p := by
  induction run with
  | nil => rfl
  | cons x rest ih =>
    have hx := hall x (by simp)
    simp only [List.cons_append, List.dropWhile_cons, hx, if_true]
    exact ih (fun z hz => hall z (by simp [hz]))

theorem dropWhile_of_IsRecommendKey (key : String) (h : IsRecommendKey key) :
    key.data.dropWhile isContainerChar = ".recommendations.com/cpu".data ∨
      key.data.dropWhile isContainerChar = ".recommendations.com/memory".data := by
  obtain ⟨c, hc, hk | hk⟩ := h
  · left
    rw [hk, recommendCPU, String.data_append, dropWhile_run_append _ _ _ hc.2]
    decide
  · right
    rw [hk, recommendMem, String.data_append, dropWhile_run_append _ _ _ hc.2]
    decide

theorem lastOverride_eq_some_iff (c : String) (r : ResourceName) (K : String)
    (annotations : GoMap String String)
    (hmatch : ∀ kv ∈ annotations, FindStringSubmatch kv.1 = some (c, r) ↔ kv.1 = K)
    (hnodup : (annotations.map Prod.fst).Nodup) :
    ∀ (acc : Option String) (v : String),
      lastOverride c r annotations acc = some v ↔
        ((K, v) ∈ annotations ∨ (K ∉ annotations.map Prod.fst ∧ acc = some v)) := by
  induction annotations with
  | nil => intro acc v; simp [lastOverride]
  | cons kv rest ih =>
    intro acc v
    obtain ⟨k0, v0⟩ := kv
    have hm0 := hmatch (k0, v0) (by simp)
    have hrest := ih (fun kv' hkv' => hmatch kv' (by simp [hkv']))
      (by simp only [List.map_cons, List.nodup_cons] at hnodup; exact hnodup.2)
    have hnot : k0 ∉ rest.map Prod.fst := by
      simp only [List.map_cons, List.nodup_cons] at hnodup
      exact hnodup.1
    simp only [lastOverride, List.foldl_cons]
    have hfold := hrest (if FindStringSubmatch k0 = some (c, r) then some v0 else acc) v
    simp only [lastOverride] at hfold
    rw [hfold]
    by_cases hk : k0 = K
    · subst hk
      have hno : ∀ w, (k0, w) ∉ rest := by
        intro w hw
        exact hnot (List.mem_map.mpr ⟨(k0, w), hw, rfl⟩)
      simp [hm0.mpr rfl, hno, hnot]
      exact eq_comm
    · have hf : ¬ FindStringSubmatch k0 = some (c, r) := fun h => hk (hm0.mp h)
      have hK : ¬ K = k0 := fun h => hk h.symm
      simp [hf, hK]

theorem requestedStep_inner_nonempty (requested : GoMap String (GoMap ResourceName String))
    (kv : String × String)
    (hinv : ∀ c inner, GoMap.lookup requested c = some inner → inner ≠ []) :
    ∀ c inner, GoMap.lookup (requestedStep requested kv) c = some inner → inner ≠ [] := by
  intro c inner h
  unfold requestedStep at h
  cases hf : FindStringSubmatch kv.1 with
  | none =>
    simp only [hf] at h
    exact hinv c inner h
  | some m =>
    obtain ⟨c0, r0⟩ := m
    simp only [hf] at h
    rw [GoMap.lookup_insert] at h
    by_cases hc : c0 = c
    · simp only [hc, if_true, Option.some.injEq] at h
      rw [← h]
      cases (GoMap.lookup
        (match GoMap.lookup requested c with
          | some _ => requested
          | none => GoMap.insert requested c []) c).getD [] with
      | nil => simp [GoMap.insert]
      | cons e rest =>
        obtain ⟨k1, v1⟩ := e
        by_cases h1 : k1 = r0
        · simp [GoMap.insert, h1]
        · simp [GoMap.insert, h1]
    · simp only [hc, if_false] at h
      cases hl : GoMap.lookup requested c0 with
      | some i0 =>
        simp only [hl] at h
        exact hinv c inner h
      | none =>
        simp only [hl, GoMap.lookup_insert, hc, if_false] at h
        exact hinv c inner h

theorem foldl_requestedStep_inner_nonempty (annotations : GoMap String String) :
    ∀ (requested : GoMap String (GoMap ResourceName String)),
      (∀ c inner, GoMap.lookup requested c = some inner → inner ≠ []) →
      ∀ c inner, GoMap.lookup (annotations.foldl requestedStep requested) c = some inner →
        inner ≠ [] := by
  induction annotations with
  | nil => intro requested hinv; exact hinv
  | cons kv rest ih =>
    intro requested hinv
    exact ih (requestedStep requested kv) (requestedStep_inner_nonempty requested kv hinv)

theorem foldl_requestedStep_of_no_match (annotations : GoMap String String)
    (h : ∀ kv ∈ annotations, FindStringSubmatch kv.1 = none) :
    ∀ (requested : GoMap String (GoMap ResourceName String)),
      annotations.foldl requestedStep requested = requested := by
  induction annotations with
  | nil => intro requested; rfl
  | cons kv rest ih =>
    intro requested
    have h0 := h kv (by simp)
    simp only [List.foldl_cons, requestedStep, h0]
    exact ih (fun kv' hkv' => h kv' (by simp [hkv'])) requested

/-- C8, the code at a failing input. The key `webxrecommendations.com/cpu` (an `x`
where the pattern has its first dot) and the key `team.web.recommendations.com/cpu`
(text before the container name) do not match the anchored pattern
`^[a-z0-9-]+\.recommendations\.com/(cpu|memory)$`, yet `HasRecommendationAnnotations`
returns true on each and `GetResourceRequestAnnotations` reads each as an override
for container `web`. -/
theorem HasRecommendationAnnotations_accepts_inexact_key :
    (HasRecommendationAnnotations [("webxrecommendations.com/cpu", "300")] = true ∧
      ¬ IsRecommendKey "webxrecommendations.com/cpu" ∧
      lookupOverride (GetResourceRequestAnnotations [("webxrecommendations.com/cpu", "300")])
        "web" "cpu" = some "300") ∧
    (HasRecommendationAnnotations [("team.web.recommendations.com/cpu", "300")] = true ∧
      ¬ IsRecommendKey "team.web.recommendations.com/cpu" ∧
      lookupOverride
        (GetResourceRequestAnnotations [("team.web.recommendations.com/cpu", "300")])
        "web" "cpu" = some "300") := by
  refine ⟨⟨by decide, ?_, by decide⟩, ⟨by decide, ?_, by decide⟩⟩
  · intro h
    have hd := dropWhile_of_IsRecommendKey _ h
    revert hd
    decide
  · intro h
    have hd := dropWhile_of_IsRecommendKey _ h
    revert hd
    decide

/-- C9. For an annotation map (distinct keys) in which every key either is exactly
`<c>.recommendations.com/<r>` (`c` a non-empty string over `[a-z0-9-]`, `r` one of
`cpu`, `memory`) or does not contain the text `recommendations`,
`GetResourceRequestAnnotations` returns the map whose entry `[c][r]` is `v` exactly
when the annotation `<c>.recommendations.com/<r>: v` is present; every container
entry of the result holds at least one resource entry; and the result is the empty
map when no key is of that form. -/
theorem GetResourceRequestAnnotations_exact_keys (annotations : GoMap String String)
    (hnodup : (annotations.map Prod.fst).Nodup)
    (hkeys : ∀ kv ∈ annotations,
      IsRecommendKey kv.1 ∨ ¬ "recommendations".data <:+: kv.1.data) :
    (∀ (c : String) (r : ResourceName) (v : String),
      lookupOverride (GetResourceRequestAnnotations annotations) c r = some v ↔
        IsContainerName c ∧
          ((r = ResourceCPU ∧ (recommendCPU c, v) ∈ annotations) ∨
            (r = ResourceMemory ∧ (recommendMem c, v) ∈ annotations))) ∧
    (∀ (c : String) (inner : GoMap ResourceName String),
      GoMap.lookup (GetResourceRequestAnnotations annotations) c = some inner →
        ∃ r v, GoMap.lookup inner r = some v) ∧
    ((∀ kv ∈ annotations, ¬ IsRecommendKey kv.1) →
      GetResourceRequestAnnotations annotations = []) := by
  have hcpu : ∀ c, IsContainerName c → ∀ kv ∈ annotations,
      (FindStringSubmatch kv.1 = some (c, "cpu") ↔ kv.1 = recommendCPU c) := by
    intro c hc kv hkv
    rw [FindStringSubmatch_of_exact_or_unrelated kv.1 (hkeys kv hkv) c "cpu"]
    simp [hc]
  have hmem : ∀ c, IsContainerName c → ∀ kv ∈ annotations,
      (FindStringSubmatch kv.1 = some (c, "memory") ↔ kv.1 = recommendMem c) := by
    intro c hc kv hkv
    rw [FindStringSubmatch_of_exact_or_unrelated kv.1 (hkeys kv hkv) c "memory"]
    simp [hc]
  refine ⟨?_, ?_, ?_⟩
  · intro c r v
    rw [GetResourceRequestAnnotations_lookupOverride]
    constructor
    · intro h
      obtain ⟨kv, hkv, hfind⟩ := exists_match_of_lastOverride c r annotations v h
      obtain ⟨hc, hr⟩ :=
        (FindStringSubmatch_of_exact_or_unrelated kv.1 (hkeys kv hkv) c r).mp hfind
      refine ⟨hc, ?_⟩
      rcases hr with ⟨hr, _⟩ | ⟨hr, _⟩
      · subst hr
        have h2 := (lastOverride_eq_some_iff c "cpu" (recommendCPU c) annotations (hcpu c hc)
          hnodup none v).mp h
        rcases h2 with h2 | ⟨_, h2⟩
        · exact Or.inl ⟨rfl, h2⟩
        · exact Option.noConfusion h2
      · subst hr
        have h2 := (lastOverride_eq_some_iff c "memory" (recommendMem c) annotations
          (hmem c hc) hnodup none v).mp h
        rcases h2 with h2 | ⟨_, h2⟩
        · exact Or.inr ⟨rfl, h2⟩
        · exact Option.noConfusion h2
    · rintro ⟨hc, ⟨hr, hin⟩ | ⟨hr, hin⟩⟩
      · rw [hr]
        exact (lastOverride_eq_some_iff c "cpu" (recommendCPU c) annotations (hcpu c hc)
          hnodup none v).mpr (Or.inl hin)
      · rw [hr]
        exact (lastOverride_eq_some_iff c "memory" (recommendMem c) annotations (hmem c hc)
          hnodup none v).mpr (Or.inl hin)
  · intro c inner h
    have hne := foldl_requestedStep_inner_nonempty annotations []
      (by intro c inner h; simp [GoMap.lookup] at h) c inner h
    cases inner with
    | nil => exact absurd rfl hne
    | cons e rest =>
      obtain ⟨r, v⟩ := e
      exact ⟨r, v, by simp [GoMap.lookup]⟩
  · intro hnone
    unfold GetResourceRequestAnnotations
    apply foldl_requestedStep_of_no_match
    intro kv hkv
    rcases hkeys kv hkv with h | h
    · exact absurd h (hnone kv hkv)
    · exact FindStringSubmatch_eq_none_of_unrelated kv.1 h

/-- Witness of C9: the mixed annotations of the unit tests; the entry
`[container1][cpu]` is `100m`, as the annotation says. -/
theorem GetResourceRequestAnnotations_exact_keys_witness :
    (lookupOverride (GetResourceRequestAnnotations exampleAnnotationsMixed)
        "container1" "cpu" = some "100m" ↔
      IsContainerName "container1" ∧
        (("cpu" = ResourceCPU ∧
            (recommendCPU "container1", "100m") ∈ exampleAnnotationsMixed) ∨
          ("cpu" = ResourceMemory ∧
            (recommendMem "container1", "100m") ∈ exampleAnnotationsMixed))) ∧
    lookupOverride (GetResourceRequestAnnotations exampleAnnotationsMixed)
      "container1" "cpu" = some "100m" :=
  ⟨(GetResourceRequestAnnotations_exact_keys exampleAnnotationsMixed (by decide)
      (by
        intro kv hkv
        simp only [exampleAnnotationsMixed, List.mem_cons, List.mem_singleton,
          List.not_mem_nil, or_false] at hkv
        rcases hkv with h | h | h
        · subst h
          exact Or.inl ⟨"container1", ⟨by decide, by decide⟩, Or.inl (by decide)⟩
        · subst h
          exact Or.inl ⟨"container1", ⟨by decide, by decide⟩, Or.inr (by decide)⟩
        · subst h
          exact Or.inr (by decide))).1 "container1" "cpu" "100m",
   by decide⟩

end AnnotationClaims

/-! ## Claims on the annotations map of `GetContainersResources` -/

section AppendLemmas

variable {Q P : Type}

theorem resolveContainer_cases (u : Util Q P) (policy : Option P)
    (rec : RecommendedPodResources Q) (limitRange : Option (LimitRangeItem Q)) (addAll : Bool)
    (container : Container Q) (annotations annotations1 : ContainerToAnnotationsMap)
    (entry : ContainerResources Q)
    (h : resolveContainer u policy rec limitRange addAll container annotations =
      some (entry, annotations1)) :
    (annotations1 = annotations ∧
        (entry.Limits ≠ none →
          u.GetContainerControlledValues container.Name policy =
            ContainerControlledValues.RequestsAndLimits)) ∨
      (u.GetContainerControlledValues container.Name policy =
          ContainerControlledValues.RequestsAndLimits ∧
        entry.Limits ≠ none ∧
        ∃ m notes, annotations = some m ∧
          annotations1 = some (GoMap.insert m container.Name
            ((GoMap.lookup m container.Name).getD [] ++ notes))) := by
  unfold resolveContainer at h
  simp only [] at h
  split at h
  · simp only [Option.some.injEq, Prod.mk.injEq] at h
    left
    refine ⟨h.2.symm, ?_⟩
    rw [← h.1]
    intro hne
    exact absurd rfl hne
  · split at h
    · rename_i hmode
      split at h
      · split at h
        · split at h
          · exact Option.noConfusion h
          · simp only [Option.some.injEq, Prod.mk.injEq] at h
            right
            refine ⟨hmode, ?_, _, _, rfl, h.2.symm⟩
            rw [← h.1]
            simp
        · simp only [Option.some.injEq, Prod.mk.injEq] at h
          left
          exact ⟨h.2.symm, fun _ => hmode⟩
      · simp only [Option.some.injEq, Prod.mk.injEq] at h
        left
        exact ⟨h.2.symm, fun _ => hmode⟩
    · simp only [Option.some.injEq, Prod.mk.injEq] at h
      left
      refine ⟨h.2.symm, ?_⟩
      rw [← h.1]
      intro hne
      exact absurd rfl hne

theorem resolveContainer_keeps_earlier (u : Util Q P) (policy : Option P)
    (rec : RecommendedPodResources Q) (limitRange : Option (LimitRangeItem Q)) (addAll : Bool)
    (container : Container Q) (annotations annotations1 : ContainerToAnnotationsMap)
    (entry : ContainerResources Q)
    (h : resolveContainer u policy rec limitRange addAll container annotations =
      some (entry, annotations1))
    (key : String) :
    (annotationsFor annotations key).getD [] <+: (annotationsFor annotations1 key).getD [] := by
  rcases resolveContainer_cases u policy rec limitRange addAll container annotations
    annotations1 entry h with ⟨heq, _⟩ | ⟨_, _, m, notes, ha, ha1⟩
  · rw [heq]
  · rw [ha, ha1]
    simp only [annotationsFor, GoMap.lookup_insert]
    by_cases hk : container.Name = key
    · subst hk
      simp
    · simp [hk]

theorem resolveContainer_limits_of_requestsOnly (u : Util Q P) (policy : Option P)
    (rec : RecommendedPodResources Q) (limitRange : Option (LimitRangeItem Q)) (addAll : Bool)
    (container : Container Q) (annotations annotations1 : ContainerToAnnotationsMap)
    (entry : ContainerResources Q)
    (h : resolveContainer u policy rec limitRange addAll container annotations =
      some (entry, annotations1))
    (hmode : u.GetContainerControlledValues container.Name policy =
      ContainerControlledValues.RequestsOnly) :
    entry.Limits = none := by
  rcases resolveContainer_cases u policy rec limitRange addAll container annotations
    annotations1 entry h with ⟨_, himp⟩ | ⟨hral, _, _⟩
  · by_contra hne
    have := himp hne
    rw [hmode] at this
    exact ContainerControlledValues.noConfusion this
  · rw [hmode] at hral
    exact ContainerControlledValues.noConfusion hral

theorem resolveContainers_append_only (u : Util Q P) (policy : Option P)
    (rec : RecommendedPodResources Q) (limitRange : Option (LimitRangeItem Q)) (addAll : Bool)
    (containers : List (Container Q)) :
    ∀ (annotations annotations1 : ContainerToAnnotationsMap) (out : List (ContainerResources Q)),
      resolveContainers u policy rec limitRange addAll containers annotations =
        some (out, annotations1) →
      ∀ key : String,
        (annotationsFor annotations key).getD [] <+: (annotationsFor annotations1 key).getD [] ∧
        ((∀ (i : Nat) (c : Container Q) (entry : ContainerResources Q),
            containers[i]? = some c → out[i]? = some entry → c.Name = key →
            u.GetContainerControlledValues c.Name policy =
              ContainerControlledValues.RequestsAndLimits →
            entry.Limits = none) →
          annotationsFor annotations1 key = annotationsFor annotations key) := by
  induction containers with
  | nil =>
    intro annotations annotations1 out h key
    simp only [resolveContainers, Option.some.injEq, Prod.mk.injEq] at h
    rw [← h.2]
    exact ⟨List.prefix_refl _, fun _ => rfl⟩
  | cons c rest ih =>
    intro annotations annotations1 out h key
    simp only [resolveContainers] at h
    cases h1 : resolveContainer u policy rec limitRange addAll c annotations with
    | none => simp [h1] at h
    | some ra =>
      obtain ⟨r, a1⟩ := ra
      simp only [h1] at h
      cases h2 : resolveContainers u policy rec limitRange addAll rest a1 with
      | none => simp [h2] at h
      | some rsa =>
        obtain ⟨rs, a2⟩ := rsa
        simp only [h2, Option.some.injEq, Prod.mk.injEq] at h
        obtain ⟨hout, hann⟩ := h
        subst hout
        subst hann
        obtain ⟨hpre, hsame⟩ := ih a1 a2 rs h2 key
        refine ⟨List.IsPrefix.trans
          (resolveContainer_keeps_earlier u policy rec limitRange addAll c annotations a1 r h1 key)
          hpre, ?_⟩
        intro hkey
        rw [hsame (fun i c' entry hc hentry hname hmode =>
          hkey (i + 1) c' entry (by simpa using hc) (by simpa using hentry) hname hmode)]
        rcases resolveContainer_cases u policy rec limitRange addAll c annotations a1 r h1 with
          ⟨heq, _⟩ | ⟨hral, hlim, m, notes, ha, ha1⟩
        · rw [heq]
        · by_cases hname : c.Name = key
          · exact absurd (hkey 0 c r (by simp) (by simp) hname hral) hlim
          · exact resolveContainer_annotationsFor u policy rec limitRange addAll c annotations a1
              r h1 key hname

end AppendLemmas

section AppendClaims

variable {Q P : Type}

/-- C11. Whenever `GetContainersResources` returns, a container whose control-value
mode resolved from the policy is `RequestsOnly` has nil `Limits` in its entry and
the annotations stored under its name are what they were before the call, whatever
its original limits and requests, the chosen request and the limit range are. -/
theorem GetContainersResources_requestsOnly_no_limits (u : Util Q P) (pod : Pod Q)
    (policy : Option P) (rec : RecommendedPodResources Q)
    (limitRange : Option (LimitRangeItem Q)) (addAll : Bool)
    (annotations annotations1 : ContainerToAnnotationsMap) (out : List (ContainerResources Q))
    (i : Nat) (container : Container Q)
    (hret : GetContainersResources u pod policy rec limitRange addAll annotations
      = some (out, annotations1))
    (hi : pod.Containers[i]? = some container)
    (hmode : u.GetContainerControlledValues container.Name policy =
      ContainerControlledValues.RequestsOnly) :
    (∃ entry, out[i]? = some entry ∧ entry.Limits = none) ∧
      annotationsFor annotations1 container.Name = annotationsFor annotations container.Name := by
  constructor
  · obtain ⟨_, hget⟩ := resolveContainers_get u policy rec limitRange addAll pod.Containers
      annotations annotations1 out hret
    obtain ⟨entry, a, a1, h1, h2⟩ := hget i container hi
    exact ⟨entry, h1, resolveContainer_limits_of_requestsOnly u policy rec limitRange addAll
      container a a1 entry h2 hmode⟩
  · refine (resolveContainers_append_only u policy rec limitRange addAll pod.Containers
      annotations annotations1 out hret container.Name).2 ?_
    intro j c entry _ _ hname hral
    rw [hname, hmode] at hral
    exact ContainerControlledValues.noConfusion hral

/-- C19. Whenever `GetContainersResources` returns, the annotations map was only
appended to: under every key the sequence stored before the call is a prefix of the
sequence stored after it, and a key that is not the name of a pod container in mode
`RequestsAndLimits` whose entry got non-nil `Limits` holds exactly what it held
before. -/
theorem GetContainersResources_annotations_append_only (u : Util Q P) (pod : Pod Q)
    (policy : Option P) (rec : RecommendedPodResources Q)
    (limitRange : Option (LimitRangeItem Q)) (addAll : Bool)
    (annotations annotations1 : ContainerToAnnotationsMap) (out : List (ContainerResources Q))
    (hret : GetContainersResources u pod policy rec limitRange addAll annotations
      = some (out, annotations1))
    (key : String) :
    (annotationsFor annotations key).getD [] <+: (annotationsFor annotations1 key).getD [] ∧
      ((∀ (i : Nat) (c : Container Q) (entry : ContainerResources Q),
          pod.Containers[i]? = some c → out[i]? = some entry → c.Name = key →
          u.GetContainerControlledValues c.Name policy =
            ContainerControlledValues.RequestsAndLimits →
          entry.Limits = none) →
        annotationsFor annotations1 key = annotationsFor annotations key) :=
  resolveContainers_append_only u policy rec limitRange addAll pod.Containers annotations
    annotations1 out hret key

end AppendClaims

section AppendWitnesses

/-- Witness of C11: container `a` is in mode `RequestsOnly`; its entry has no
limits and nothing is stored under `a`, while `b` gets limits and a note. -/
theorem GetContainersResources_requestsOnly_no_limits_witness :
    (∃ entry,
      ([{ Limits := none, Requests := some [("cpu", 250)] },
        { Limits := some [("cpu", 200)], Requests := some [("cpu", 100)] }] :
        List (ContainerResources Nat))[0]? = some entry ∧ entry.Limits = none) ∧
    annotationsFor (some [("b", ["note"])]) "a" = annotationsFor (some []) "a" :=
  GetContainersResources_requestsOnly_no_limits (exampleUtilRequestsOnlyA ["note"])
    examplePodAB none exampleRecommendationA none true (some []) (some [("b", ["note"])]) _ 0
    { Name := "a", Resources := { Limits := some [("cpu", 200)], Requests := some [("cpu", 100)] } }
    (by decide) (by decide) (by decide)

/-- Witness of C19: the note for container `a` is appended after the entry `old`
already stored under `a`. -/
theorem GetContainersResources_annotations_append_only_witness :
    (annotationsFor (some [("a", ["old"])]) "a").getD [] <+:
        (annotationsFor (some [("a", ["old", "note"])]) "a").getD [] ∧
      ((∀ (i : Nat) (c : Container Nat) (entry : ContainerResources Nat),
          examplePodAB.Containers[i]? = some c →
          ([{ Limits := some [("cpu", 200)], Requests := some [("cpu", 250)] },
            { Limits := none, Requests := none }] : List (ContainerResources Nat))[i]?
            = some entry →
          c.Name = "a" →
          (exampleUtil ["note"]).GetContainerControlledValues c.Name none =
            ContainerControlledValues.RequestsAndLimits →
          entry.Limits = none) →
        annotationsFor (some [("a", ["old", "note"])]) "a" =
          annotationsFor (some [("a", ["old"])]) "a") :=
  GetContainersResources_annotations_append_only (exampleUtil ["note"]) examplePodAB none
    exampleRecommendationA none false (some [("a", ["old"])]) (some [("a", ["old", "note"])])
    _ (by decide) "a"

end AppendWitnesses

/-! ## Claims on the proportional limit -/

section LimitLemmas

variable {Q P : Type}

theorem resolveContainer_limits (u : Util Q P) (policy : Option P)
    (rec : RecommendedPodResources Q) (limitRange : Option (LimitRangeItem Q)) (addAll : Bool)
    (container : Container Q) (annotations annotations1 : ContainerToAnnotationsMap)
    (entry : ContainerResources Q)
    (h : resolveContainer u policy rec limitRange addAll container annotations =
      some (entry, annotations1))
    (hmode : u.GetContainerControlledValues container.Name policy =
      ContainerControlledValues.RequestsAndLimits)
    (hreq : entry.Requests ≠ none) :
    entry.Limits =
      (u.GetProportionalLimit container.Resources.Limits container.Resources.Requests
        entry.Requests
        (match limitRange with
          | some lr => lr.Default
          | none => some [])).1 := by
  cases limitRange with
  | none =>
    unfold resolveContainer at h
    simp only [] at h
    split at h
    · simp only [Option.some.injEq, Prod.mk.injEq] at h
      rw [← h.1] at hreq
      exact absurd rfl hreq
    · rw [hmode] at h
      simp only [] at h
      split at h
      · rename_i pl notes hpl
        split at h
        · split at h
          · exact Option.noConfusion h
          · simp only [Option.some.injEq, Prod.mk.injEq] at h
            obtain ⟨h1, _⟩ := h
            subst h1
            simp only [hpl]
        · simp only [Option.some.injEq, Prod.mk.injEq] at h
          obtain ⟨h1, _⟩ := h
          subst h1
          simp only [hpl]
      · rename_i notes hpl
        simp only [Option.some.injEq, Prod.mk.injEq] at h
        obtain ⟨h1, _⟩ := h
        subst h1
        simp only [hpl]
  | some lr =>
    unfold resolveContainer at h
    simp only [] at h
    split at h
    · simp only [Option.some.injEq, Prod.mk.injEq] at h
      rw [← h.1] at hreq
      exact absurd rfl hreq
    · rw [hmode] at h
      simp only [] at h
      split at h
      · rename_i pl notes hpl
        split at h
        · split at h
          · exact Option.noConfusion h
          · simp only [Option.some.injEq, Prod.mk.injEq] at h
            obtain ⟨h1, _⟩ := h
            subst h1
            simp only [hpl]
        · simp only [Option.some.injEq, Prod.mk.injEq] at h
          obtain ⟨h1, _⟩ := h
          subst h1
          simp only [hpl]
      · rename_i notes hpl
        simp only [Option.some.injEq, Prod.mk.injEq] at h
        obtain ⟨h1, _⟩ := h
        subst h1
        simp only [hpl]

theorem foldl_proportionalLimitStep_lookup (namespaceMax namespaceMin : ResourceList Nat)
    (containerName : String)
    (originalLimits originalRequests newRequests defaultLimit : ResourceList Nat)
    (entries : List (ResourceName × Nat)) :
    ∀ (acc : GoMap ResourceName Nat × List String) (r : ResourceName),
      GoMap.lookup (entries.foldl (proportionalLimitStep namespaceMax namespaceMin containerName
          originalLimits originalRequests newRequests defaultLimit) acc).1 r =
        if r ∈ entries.map Prod.fst then
          match scaledLimit originalLimits originalRequests newRequests defaultLimit r with
          | some scaled => some (clampLimit namespaceMax namespaceMin containerName r scaled).1
          | none => GoMap.lookup acc.1 r
        else GoMap.lookup acc.1 r := by
  induction entries with
  | nil => intro acc r; simp
  | cons e rest ih =>
    intro acc r
    obtain ⟨r0, v0⟩ := e
    simp only [List.foldl_cons]
    rw [ih]
    by_cases hr : r ∈ rest.map Prod.fst
    · have hr2 : r ∈ ((r0, v0) :: rest).map Prod.fst := by simp [hr]
      rw [if_pos hr, if_pos hr2]
      cases hs : scaledLimit originalLimits originalRequests newRequests defaultLimit r with
      | some scaled => rfl
      | none =>
        simp only []
        by_cases h0 : r0 = r
        · subst h0
          simp [proportionalLimitStep, hs]
        · cases hs0 : scaledLimit originalLimits originalRequests newRequests defaultLimit r0 with
          | none => simp [proportionalLimitStep, hs0]
          | some s0 => simp [proportionalLimitStep, hs0, GoMap.lookup_insert, h0]
    · rw [if_neg hr]
      by_cases h0 : r0 = r
      · subst h0
        have hr2 : r0 ∈ ((r0, v0) :: rest).map Prod.fst := by simp
        rw [if_pos hr2]
        cases hs : scaledLimit originalLimits originalRequests newRequests defaultLimit r0 with
        | none => simp [proportionalLimitStep, hs]
        | some s0 => simp [proportionalLimitStep, hs, GoMap.lookup_insert]
      · have hr2 : r ∉ ((r0, v0) :: rest).map Prod.fst := by
          simp only [List.map_cons, List.mem_cons, not_or]
          exact ⟨fun h => h0 h.symm, hr⟩
        rw [if_neg hr2]
        cases hs0 : scaledLimit originalLimits originalRequests newRequests defaultLimit r0 with
        | none => simp [proportionalLimitStep, hs0]
        | some s0 => simp [proportionalLimitStep, hs0, GoMap.lookup_insert, h0]

theorem GetProportionalLimit_get (namespaceMax namespaceMin : ResourceList Nat)
    (containerName : String)
    (originalLimits originalRequests newRequests defaultLimit : ResourceList Nat)
    (r : ResourceName) :
    (GetProportionalLimit namespaceMax namespaceMin containerName originalLimits
        originalRequests newRequests defaultLimit).1.get r =
      match scaledLimit originalLimits originalRequests newRequests defaultLimit r with
      | some scaled => some (clampLimit namespaceMax namespaceMin containerName r scaled).1
      | none => none := by
  cases hn : newRequests with
  | none => simp [GetProportionalLimit, scaledLimit, ResourceList.get]
  | some entries =>
    have hfold := foldl_proportionalLimitStep_lookup namespaceMax namespaceMin containerName
      originalLimits originalRequests (some entries) defaultLimit entries ([], []) r
    have hres : (GetProportionalLimit namespaceMax namespaceMin containerName originalLimits
        originalRequests (some entries) defaultLimit).1.get r =
        GoMap.lookup (entries.foldl (proportionalLimitStep namespaceMax namespaceMin
          containerName originalLimits originalRequests (some entries) defaultLimit)
          ([], [])).1 r := by
      unfold GetProportionalLimit
      simp only []
      split
      · rename_i notes heq
        rw [heq]
        simp [ResourceList.get, GoMap.lookup]
      · rename_i e limits notes heq
        rw [heq]
        simp [ResourceList.get]
    rw [hres, hfold]
    by_cases hr : r ∈ entries.map Prod.fst
    · rw [if_pos hr]
      cases scaledLimit originalLimits originalRequests (some entries) defaultLimit r with
      | some s => rfl
      | none => simp [GoMap.lookup]
    · rw [if_neg hr]
      have hnone : scaledLimit originalLimits originalRequests (some entries) defaultLimit r
          = none := by
        simp [scaledLimit, ResourceList.get, GoMap.lookup_eq_none_of_not_mem entries r hr]
      rw [hnone]
      simp [GoMap.lookup]

theorem scaledLimit_same_request
    (originalLimits originalRequests newRequests defaultLimit : ResourceList Nat)
    (r : ResourceName) (q l : Nat) (hlim : originalLimits.get r = some l)
    (hreq : originalRequests.get r = some q) (hnew : newRequests.get r = some q) :
    scaledLimit originalLimits originalRequests newRequests defaultLimit r = some l := by
  simp only [scaledLimit, hnew, hlim, hreq]
  by_cases hq : q = 0
  · simp [hq]
  · simp [hq, Nat.mul_div_cancel l (Nat.pos_of_ne_zero hq)]

theorem clampLimit_of_within (namespaceMax namespaceMin : ResourceList Nat)
    (containerName : String) (r : ResourceName) (l : Nat)
    (hmax : ∀ mx, namespaceMax.get r = some mx → l ≤ mx)
    (hmin : ∀ mn, namespaceMin.get r = some mn → mn ≤ l) :
    (clampLimit namespaceMax namespaceMin containerName r l).1 = l := by
  have hminc : (clampToMinimum namespaceMin containerName r l).1 = l := by
    unfold clampToMinimum
    cases hm : namespaceMin.get r with
    | none => rfl
    | some mn =>
      have := hmin mn hm
      simp [Nat.not_lt.mpr this]
  unfold clampLimit
  cases hm : namespaceMax.get r with
  | none => exact hminc
  | some mx =>
    have := hmax mx hm
    simp only [Nat.not_lt.mpr this, if_false]
    exact hminc

/-- For an unchanged request the calculator returns the original limit, clamped to
the namespace bounds. -/
theorem GetProportionalLimit_same_request (namespaceMax namespaceMin : ResourceList Nat)
    (containerName : String)
    (originalLimits originalRequests newRequests defaultLimit : ResourceList Nat)
    (r : ResourceName) (q l : Nat) (hlim : originalLimits.get r = some l)
    (hreq : originalRequests.get r = some q) (hnew : newRequests.get r = some q) :
    (GetProportionalLimit namespaceMax namespaceMin containerName originalLimits
        originalRequests newRequests defaultLimit).1.get r =
      some (clampLimit namespaceMax namespaceMin containerName r l).1 := by
  rw [GetProportionalLimit_get,
    scaledLimit_same_request originalLimits originalRequests newRequests defaultLimit r q l
      hlim hreq hnew]

end LimitLemmas

section LimitClaims

variable {P : Type}

/-- The scenario of the specification: container `web` with request `cpu: 100` and
limit `cpu: 200`, recommended `cpu: 250`, no namespace bounds; the limit keeps the
ratio and becomes `cpu: 500`. -/
theorem GetContainersResources_scenario :
    GetContainersResources
      (specUtil exampleParse
        (fun _ (_ : Option Unit) => ContainerControlledValues.RequestsAndLimits) none none "web")
      examplePod none exampleRecommendation none false none =
      some ([{ Limits := some [("cpu", 500)], Requests := some [("cpu", 250)] }], none) := by
  decide

/-- Counterexample to C12: container `web`, in mode `RequestsAndLimits`, requests
`cpu: 100` with the limit `cpu: 200`, and the request chosen for it is again
`cpu: 100`; with the namespace maximum `cpu: 150` the calculator clamps, so the
emitted limit is `150`, not the original `200`, and a note is recorded. -/
theorem GetContainersResources_same_request_limit_clamped :
    GetContainersResources
        (specUtil exampleParse
          (fun _ (_ : Option Unit) => ContainerControlledValues.RequestsAndLimits)
          (some [("cpu", 150)]) none "web")
        examplePod none (exampleRecommendationWith (some [("cpu", 100)])) none false (some []) =
      some ([{ Limits := some [("cpu", 150)], Requests := some [("cpu", 100)] }],
        some [("web", ["cpu limit capped to namespace maximum for web"])]) ∧
    (examplePod.Containers[0]?).map
        (fun c => (c.Resources.Requests.get "cpu", c.Resources.Limits.get "cpu")) =
      some (some 100, some 200) := by
  decide

/-- C12, amended. Limit scaling idempotence up to the namespace bounds, with
`GetProportionalLimit` as modelled: for a container in mode `RequestsAndLimits` that
declares the original request `q` and the original limit `l` for a resource, when
the request chosen for that resource in its entry is again `q`, the limit
`GetContainersResources` emits for the resource is `l` clamped to the namespace
maximum and minimum of the resource; it is `l` itself, whatever the ratio of `l` to
`q`, when `l` lies within those bounds, in particular when the namespace sets
none. -/
theorem GetContainersResources_limit_idempotent_within_bounds
    (MustParse : String → Option Nat)
    (getContainerControlledValues : String → Option P → ContainerControlledValues)
    (namespaceMax namespaceMin : ResourceList Nat) (containerName : String)
    (pod : Pod Nat) (policy : Option P) (rec : RecommendedPodResources Nat)
    (limitRange : Option (LimitRangeItem Nat)) (addAll : Bool)
    (annotations annotations1 : ContainerToAnnotationsMap)
    (out : List (ContainerResources Nat)) (i : Nat) (container : Container Nat)
    (entry : ContainerResources Nat) (r : ResourceName) (q l : Nat)
    (hret : GetContainersResources
      (specUtil MustParse getContainerControlledValues namespaceMax namespaceMin containerName)
      pod policy rec limitRange addAll annotations = some (out, annotations1))
    (hi : pod.Containers[i]? = some container)
    (hmode : getContainerControlledValues container.Name policy =
      ContainerControlledValues.RequestsAndLimits)
    (hreq : container.Resources.Requests.get r = some q)
    (hlim : container.Resources.Limits.get r = some l)
    (hout : out[i]? = some entry)
    (hnew : entry.Requests.get r = some q) :
    entry.Limits.get r = some (clampLimit namespaceMax namespaceMin containerName r l).1 ∧
      ((∀ mx, namespaceMax.get r = some mx → l ≤ mx) →
        (∀ mn, namespaceMin.get r = some mn → mn ≤ l) →
        entry.Limits.get r = some l) := by
  obtain ⟨_, hget⟩ := resolveContainers_get
    (specUtil MustParse getContainerControlledValues namespaceMax namespaceMin containerName)
    policy rec limitRange addAll pod.Containers annotations annotations1 out hret
  obtain ⟨entry1, a, a1, h1, h2⟩ := hget i container hi
  rw [hout] at h1
  simp only [Option.some.injEq] at h1
  subst h1
  have hne : entry.Requests ≠ none := by
    intro hnone
    rw [hnone] at hnew
    simp [ResourceList.get] at hnew
  have hemit : entry.Limits.get r =
      some (clampLimit namespaceMax namespaceMin containerName r l).1 := by
    rw [resolveContainer_limits
      (specUtil MustParse getContainerControlledValues namespaceMax namespaceMin containerName)
      policy rec limitRange addAll container a a1 entry h2 hmode hne]
    exact GetProportionalLimit_same_request namespaceMax namespaceMin containerName _ _ _ _ r q l
      hlim hreq hnew
  refine ⟨hemit, ?_⟩
  intro hmax hmin
  rw [hemit, clampLimit_of_within namespaceMax namespaceMin containerName r l hmax hmin]

/-- Witness of C12 as amended: container `web` requests `cpu: 100` with limit
`cpu: 200`, the namespace bounds for cpu are `50` and `300`; the chosen request is
again `100` and the emitted limit is `200`. -/
theorem GetContainersResources_limit_idempotent_within_bounds_witness :
    ({ Limits := some [("cpu", 200)], Requests := some [("cpu", 100)] } :
      ContainerResources Nat).Limits.get "cpu" = some 200 :=
  (GetContainersResources_limit_idempotent_within_bounds exampleParse
    (fun _ (_ : Option Unit) => ContainerControlledValues.RequestsAndLimits)
    (some [("cpu", 300)]) (some [("cpu", 50)]) "web"
    examplePod none (exampleRecommendationWith (some [("cpu", 100)])) none false none none
    [{ Limits := some [("cpu", 200)], Requests := some [("cpu", 100)] }] 0
    { Name := "web",
      Resources := { Limits := some [("cpu", 200)], Requests := some [("cpu", 100), ("memory", 5)] } }
    _ "cpu" 100 200 (by decide) (by decide) rfl (by decide) (by decide) (by decide)
    (by decide)).2
    (by
      intro mx h
      have h2 : mx = 300 := by
        simp only [ResourceList.get, GoMap.lookup, if_true, Option.some.injEq] at h
        exact h.symm
      subst h2
      decide)
    (by
      intro mn h
      have h2 : mn = 50 := by
        simp only [ResourceList.get, GoMap.lookup, if_true, Option.some.injEq] at h
        exact h.symm
      subst h2
      decide)

end LimitClaims

/-! ## Claims on the results of `GetContainersResourcesForPod` -/

section PodResultLemmas

variable {Q P C : Type}

theorem GetContainersResourcesForPod_of_recommendation (u : Util Q P)
    (p : recommendationProvider Q P C) (pod : Pod Q) (vpa : VerticalPodAutoscaler Q P C)
    (rec : RecommendedPodResources Q) (hrec : vpa.Recommendation = some rec) :
    GetContainersResourcesForPod u p (some pod) (some vpa) =
      match copiedRecommendation u pod vpa rec with
      | none => none
      | some copied =>
        match p.recommendationProcessor copied vpa.ResourcePolicy vpa.Conditions pod with
        | (_, annotations, some err) => some (none, annotations, some err)
        | (recommendedPodResources, annotations, none) =>
          resolveWithLimitRange u p pod vpa recommendedPodResources annotations := by
  simp only [GetContainersResourcesForPod, hrec, copiedRecommendation]

theorem GetContainersResourcesForPod_of_no_recommendation (u : Util Q P)
    (p : recommendationProvider Q P C) (pod : Pod Q) (vpa : VerticalPodAutoscaler Q P C)
    (hrec : vpa.Recommendation = none) :
    GetContainersResourcesForPod u p (some pod) (some vpa) =
      resolveWithLimitRange u p pod vpa (some { ContainerRecommendations := [] }) none := by
  simp only [GetContainersResourcesForPod, hrec]

theorem resolveWithLimitRange_off (u : Util Q P) (p : recommendationProvider Q P C)
    (pod : Pod Q) (vpa : VerticalPodAutoscaler Q P C) (policy2 : Option P)
    (hoff : vpa.UpdatePolicy = some (some UpdateModeOff))
    (recommended : Option (RecommendedPodResources Q)) (annotations : ContainerToAnnotationsMap) :
    resolveWithLimitRange u p pod { vpa with ResourcePolicy := policy2 } recommended annotations =
      resolveWithLimitRange u p pod vpa recommended annotations := by
  simp [resolveWithLimitRange, hoff]

theorem resolveWithLimitRange_error (u : Util Q P) (p : recommendationProvider Q P C)
    (pod : Pod Q) (vpa : VerticalPodAutoscaler Q P C)
    (recommended : Option (RecommendedPodResources Q)) (annotations : ContainerToAnnotationsMap)
    (item : Option (LimitRangeItem Q)) (e : String)
    (hlr : p.limitsRangeCalculator pod.Namespace = (item, some e)) :
    resolveWithLimitRange u p pod vpa recommended annotations =
      some (none, none, some ("error getting containerLimitRange: " ++ e)) := by
  simp [resolveWithLimitRange, hlr]

end PodResultLemmas

section PodResultClaims

variable {Q P C : Type}

/-- Counterexample to C13: two VPAs in update mode `Off` that differ only in
`Spec.ResourcePolicy` (none, and a cap of `150`), with a recommendation processor
that caps targets by the policy; the first yields the request `cpu: 250`, the second
`cpu: 150`. -/
theorem GetContainersResourcesForPod_off_policy_matters :
    GetContainersResourcesForPod
        (specUtil exampleParse (fun _ _ => ContainerControlledValues.RequestsAndLimits)
          none none "web")
        exampleCappingProvider (some examplePod) (some (exampleVPAOff none)) =
      some (some [{ Limits := some [("cpu", 500)], Requests := some [("cpu", 250)] }],
        some [], none) ∧
    GetContainersResourcesForPod
        (specUtil exampleParse (fun _ _ => ContainerControlledValues.RequestsAndLimits)
          none none "web")
        exampleCappingProvider (some examplePod) (some (exampleVPAOff (some 150))) =
      some (some [{ Limits := some [("cpu", 300)], Requests := some [("cpu", 150)] }],
        some [], none) :=
  ⟨rfl, rfl⟩

/-- C13, amended. For a non-nil pod and a VPA whose `UpdatePolicy.UpdateMode` is
`Off`, the resource policy is not handed to `GetContainersResources`, but it is
still handed to the recommendation processor: two VPAs that differ only in
`Spec.ResourcePolicy` yield the same resources, annotations and error whenever the
processor, on the call that is made (on the copied recommendation), returns the
same for both policies; that is trivially so when the VPA has no status
recommendation, as the processor is then not called. -/
theorem GetContainersResourcesForPod_off_policy_only_through_processor (u : Util Q P)
    (p : recommendationProvider Q P C) (pod : Pod Q) (vpa : VerticalPodAutoscaler Q P C)
    (policy2 : Option P)
    (hoff : vpa.UpdatePolicy = some (some UpdateModeOff))
    (hproc : ∀ rec copied, vpa.Recommendation = some rec →
      copiedRecommendation u pod vpa rec = some copied →
      p.recommendationProcessor copied policy2 vpa.Conditions pod =
        p.recommendationProcessor copied vpa.ResourcePolicy vpa.Conditions pod) :
    GetContainersResourcesForPod u p (some pod) (some { vpa with ResourcePolicy := policy2 }) =
      GetContainersResourcesForPod u p (some pod) (some vpa) := by
  rcases Option.eq_none_or_eq_some vpa.Recommendation with hrec | ⟨rec, hrec⟩
  · rw [GetContainersResourcesForPod_of_no_recommendation u p pod vpa hrec,
      GetContainersResourcesForPod_of_no_recommendation u p pod
        { vpa with ResourcePolicy := policy2 } hrec]
    exact resolveWithLimitRange_off u p pod vpa policy2 hoff _ _
  · rw [GetContainersResourcesForPod_of_recommendation u p pod vpa rec hrec,
      GetContainersResourcesForPod_of_recommendation u p pod { vpa with ResourcePolicy := policy2 }
        rec hrec]
    have hcopy : copiedRecommendation u pod { vpa with ResourcePolicy := policy2 } rec =
        copiedRecommendation u pod vpa rec := rfl
    rw [hcopy]
    cases hc : copiedRecommendation u pod vpa rec with
    | none => rfl
    | some copied =>
      simp only []
      rw [hproc rec copied hrec hc]
      split
      · rfl
      · exact resolveWithLimitRange_off u p pod vpa policy2 hoff _ _

/-- Witness of C13 as amended: the processor caps targets by the policy and the
container mode depends on the policy given to `GetContainersResources`; the
recommendation is `cpu: 250`, so the cap `400` changes nothing in the processor, and
in mode `Off` the VPA with the policy `400` yields the same requests and limits as
the VPA with no policy. -/
theorem GetContainersResourcesForPod_off_policy_only_through_processor_witness :
    GetContainersResourcesForPod exampleUtilPolicyMode exampleCappingProvider (some examplePod)
        (some { exampleVPAOff none with ResourcePolicy := some 400 }) =
      GetContainersResourcesForPod exampleUtilPolicyMode exampleCappingProvider
        (some examplePod) (some (exampleVPAOff none)) ∧
    GetContainersResourcesForPod exampleUtilPolicyMode exampleCappingProvider (some examplePod)
        (some (exampleVPAOff none)) =
      some (some [{ Limits := some [("cpu", 500)], Requests := some [("cpu", 250)] }],
        some [], none) :=
  ⟨GetContainersResourcesForPod_off_policy_only_through_processor exampleUtilPolicyMode
      exampleCappingProvider examplePod (exampleVPAOff none) (some 400) rfl
      (fun rec copied hrec hcopy => by
        have h1 : exampleRecommendation = rec := Option.some.inj hrec
        subst h1
        have h2 : exampleRecommendation = copied := Option.some.inj hcopy
        subst h2
        rfl),
    rfl⟩

/-- The guard of C13 at work: outside mode `Off` (no update policy) the same two
VPAs differ, as the policy `400` then reaches `GetContainersResources` and puts the
container in mode `RequestsOnly`. -/
theorem GetContainersResourcesForPod_policy_reaches_resolver_when_not_off :
    GetContainersResourcesForPod exampleUtilPolicyMode exampleCappingProvider (some examplePod)
        (some { exampleVPAOff (some 400) with UpdatePolicy := none }) =
      some (some [{ Limits := none, Requests := some [("cpu", 250)] }], some [], none) ∧
    GetContainersResourcesForPod exampleUtilPolicyMode exampleCappingProvider (some examplePod)
        (some { exampleVPAOff none with UpdatePolicy := none }) =
      some (some [{ Limits := some [("cpu", 500)], Requests := some [("cpu", 250)] }],
        some [], none) :=
  ⟨rfl, rfl⟩

/-- C14. For a non-nil pod and a VPA with a status recommendation, when the
recommendation processor, called on the copied (and possibly amended)
recommendation, returns an error, `GetContainersResourcesForPod` returns nil
resources, the annotations the processor returned and that same error. -/
theorem GetContainersResourcesForPod_processor_error (u : Util Q P)
    (p : recommendationProvider Q P C) (pod : Pod Q) (vpa : VerticalPodAutoscaler Q P C)
    (rec copied : RecommendedPodResources Q) (recommended : Option (RecommendedPodResources Q))
    (annotations : ContainerToAnnotationsMap) (err : String)
    (hrec : vpa.Recommendation = some rec)
    (hcopy : copiedRecommendation u pod vpa rec = some copied)
    (happly : p.recommendationProcessor copied vpa.ResourcePolicy vpa.Conditions pod =
      (recommended, annotations, some err)) :
    GetContainersResourcesForPod u p (some pod) (some vpa) =
      some (none, annotations, some err) := by
  rw [GetContainersResourcesForPod_of_recommendation u p pod vpa rec hrec, hcopy]
  simp only [happly]

/-- Witness of C14: the processor fails with `capping failed` after producing an
annotation for `web`. -/
theorem GetContainersResourcesForPod_processor_error_witness :
    GetContainersResourcesForPod (exampleUtil []) exampleFailingProvider (some examplePod)
        (some exampleVPA) =
      some (none, some [("web", ["partial"])], some "capping failed") :=
  GetContainersResourcesForPod_processor_error (exampleUtil []) exampleFailingProvider
    examplePod exampleVPA exampleRecommendation exampleRecommendation none
    (some [("web", ["partial"])]) "capping failed" rfl (by decide) rfl

/-- C15. For a non-nil pod and a VPA for which recommendation post-processing did not
fail (there is no status recommendation, or the processor returned no error on the
copied recommendation), when the limit-range lookup for the pod's namespace returns
an error with message `e`, `GetContainersResourcesForPod` returns nil resources, nil
annotations and the error `error getting containerLimitRange: e`; no container is
resolved, the limit calculator and the container policies play no part. -/
theorem GetContainersResourcesForPod_limit_range_error (u : Util Q P)
    (p : recommendationProvider Q P C) (pod : Pod Q) (vpa : VerticalPodAutoscaler Q P C)
    (item : Option (LimitRangeItem Q)) (e : String)
    (hpost : ∀ rec, vpa.Recommendation = some rec →
      ∃ copied recommended annotations, copiedRecommendation u pod vpa rec = some copied ∧
        p.recommendationProcessor copied vpa.ResourcePolicy vpa.Conditions pod =
          (recommended, annotations, none))
    (hlr : p.limitsRangeCalculator pod.Namespace = (item, some e)) :
    GetContainersResourcesForPod u p (some pod) (some vpa) =
      some (none, none, some ("error getting containerLimitRange: " ++ e)) := by
  rcases Option.eq_none_or_eq_some vpa.Recommendation with hrec | ⟨rec, hrec⟩
  · rw [GetContainersResourcesForPod_of_no_recommendation u p pod vpa hrec]
    exact resolveWithLimitRange_error u p pod vpa _ _ item e hlr
  · obtain ⟨copied, recommended, annotations, hcopy, happly⟩ := hpost rec hrec
    rw [GetContainersResourcesForPod_of_recommendation u p pod vpa rec hrec, hcopy]
    simp only [happly]
    exact resolveWithLimitRange_error u p pod vpa _ _ item e hlr

/-- Witness of C15: the processor succeeds and the limit-range lookup fails with
`no lister`. -/
theorem GetContainersResourcesForPod_limit_range_error_witness :
    GetContainersResourcesForPod (exampleUtil []) exampleNoLimitRangeProvider (some examplePod)
        (some exampleVPA) =
      some (none, none, some ("error getting containerLimitRange: " ++ "no lister")) :=
  GetContainersResourcesForPod_limit_range_error (exampleUtil []) exampleNoLimitRangeProvider
    examplePod exampleVPA none "no lister"
    (fun rec hrec => ⟨rec, some rec, some [], by
      have h : rec = exampleRecommendation := by
        have h2 : some exampleRecommendation = some rec := hrec
        exact (Option.some.inj h2).symm
      subst h
      exact ⟨by decide, rfl⟩⟩)
    rfl

end PodResultClaims

/-! ## Frame of `recommendedResourceRequestAmend` -/

section AmendFrame

variable {Q : Type}

theorem amendContainer_frame (MustParse : String → Option Q)
    (recResourceTargets : GoMap String (GoMap ResourceName String)) (pod : Pod Q)
    (container container1 : RecommendedContainerResources Q)
    (h : amendContainer MustParse recResourceTargets pod container = some container1) :
    container1.ContainerName = container.ContainerName ∧
      container1.LowerBound = container.LowerBound ∧
      container1.UpperBound = container.UpperBound ∧
      container1.UncappedTarget = container.UncappedTarget := by
  unfold amendContainer at h
  split at h
  · simp only [Option.some.injEq] at h
    subst h
    exact ⟨rfl, rfl, rfl, rfl⟩
  · split at h
    · simp only [Option.some.injEq] at h
      subst h
      exact ⟨rfl, rfl, rfl, rfl⟩
    · exact Option.noConfusion h

theorem amendContainers_frame (MustParse : String → Option Q)
    (recResourceTargets : GoMap String (GoMap ResourceName String)) (pod : Pod Q)
    (recs : List (RecommendedContainerResources Q)) :
    ∀ (recs1 : List (RecommendedContainerResources Q)),
      amendContainers MustParse recResourceTargets pod recs = some recs1 →
      recs1.map (fun c => (c.ContainerName, c.LowerBound, c.UpperBound, c.UncappedTarget)) =
        recs.map (fun c => (c.ContainerName, c.LowerBound, c.UpperBound, c.UncappedTarget)) := by
  induction recs with
  | nil =>
    intro recs1 h
    simp only [amendContainers, Option.some.injEq] at h
    subst h
    rfl
  | cons c rest ih =>
    intro recs1 h
    simp only [amendContainers] at h
    cases hc : amendContainer MustParse recResourceTargets pod c with
    | none => simp [hc] at h
    | some c1 =>
      simp only [hc] at h
      cases hr : amendContainers MustParse recResourceTargets pod rest with
      | none => simp [hr] at h
      | some rest1 =>
        simp only [hr, Option.some.injEq] at h
        subst h
        obtain ⟨h1, h2, h3, h4⟩ := amendContainer_frame MustParse recResourceTargets pod c c1 hc
        simp only [List.map_cons, ih rest1 hr, h1, h2, h3, h4]

/-- C16. Whenever `recommendedResourceRequestAmend` returns, only target maps have
changed: the container recommendations are as many as before and, position by
position, have the same container name, `LowerBound`, `UpperBound` and
`UncappedTarget`. -/
theorem amend_changes_only_targets (MustParse : String → Option Q)
    (rec rec1 : RecommendedPodResources Q) (pod : Pod Q) (annotations : GoMap String String)
    (hret : recommendedResourceRequestAmend MustParse rec pod annotations = some rec1) :
    rec1.ContainerRecommendations.length = rec.ContainerRecommendations.length ∧
      rec1.ContainerRecommendations.map
          (fun c => (c.ContainerName, c.LowerBound, c.UpperBound, c.UncappedTarget)) =
        rec.ContainerRecommendations.map
          (fun c => (c.ContainerName, c.LowerBound, c.UpperBound, c.UncappedTarget)) := by
  unfold recommendedResourceRequestAmend at hret
  cases hc : amendContainers MustParse (GetResourceRequestAnnotations annotations) pod
      rec.ContainerRecommendations with
  | none => simp [hc] at hret
  | some recs1 =>
    simp only [hc, Option.some.injEq] at hret
    subst hret
    have hmap := amendContainers_frame MustParse _ pod rec.ContainerRecommendations recs1 hc
    refine ⟨?_, hmap⟩
    have hlen := congrArg List.length hmap
    simpa using hlen

/-- Witness of C16: the amendment of the recommendation for `web` by the cpu
override. -/
theorem amend_changes_only_targets_witness :
    (exampleRecommendationWith (some [("cpu", 300)])).ContainerRecommendations.length =
        exampleRecommendation.ContainerRecommendations.length ∧
      (exampleRecommendationWith (some [("cpu", 300)])).ContainerRecommendations.map
          (fun c => (c.ContainerName, c.LowerBound, c.UpperBound, c.UncappedTarget)) =
        exampleRecommendation.ContainerRecommendations.map
          (fun c => (c.ContainerName, c.LowerBound, c.UpperBound, c.UncappedTarget)) :=
  amend_changes_only_targets exampleParse exampleRecommendation
    (exampleRecommendationWith (some [("cpu", 300)])) examplePod exampleAnnotationsCpu
    (by decide)

end AmendFrame

/-! ## Claims on determinism and on the fixed annotation keys -/

section OrderLemmas

theorem lookupOverride_of_exact_keys (annotations : GoMap String String)
    (hnodup : (annotations.map Prod.fst).Nodup)
    (hkeys : ∀ kv ∈ annotations,
      IsRecommendKey kv.1 ∨ ¬ "recommendations".data <:+: kv.1.data)
    (c : String) (r : ResourceName) (v : String) :
    lookupOverride (GetResourceRequestAnnotations annotations) c r = some v ↔
      IsContainerName c ∧
        ((r = ResourceCPU ∧ (recommendCPU c, v) ∈ annotations) ∨
          (r = ResourceMemory ∧ (recommendMem c, v) ∈ annotations)) := by
  have hcpu : IsContainerName c → ∀ kv ∈ annotations,
      (FindStringSubmatch kv.1 = some (c, "cpu") ↔ kv.1 = recommendCPU c) := by
    intro hc kv hkv
    rw [FindStringSubmatch_of_exact_or_unrelated kv.1 (hkeys kv hkv) c "cpu"]
    simp [hc]
  have hmem : IsContainerName c → ∀ kv ∈ annotations,
      (FindStringSubmatch kv.1 = some (c, "memory") ↔ kv.1 = recommendMem c) := by
    intro hc kv hkv
    rw [FindStringSubmatch_of_exact_or_unrelated kv.1 (hkeys kv hkv) c "memory"]
    simp [hc]
  rw [GetResourceRequestAnnotations_lookupOverride]
  constructor
  · intro h
    obtain ⟨kv, hkv, hfind⟩ := exists_match_of_lastOverride c r annotations v h
    obtain ⟨hc, hr⟩ :=
      (FindStringSubmatch_of_exact_or_unrelated kv.1 (hkeys kv hkv) c r).mp hfind
    refine ⟨hc, ?_⟩
    rcases hr with ⟨hr, _⟩ | ⟨hr, _⟩
    · subst hr
      rcases (lastOverride_eq_some_iff c "cpu" (recommendCPU c) annotations (hcpu hc)
        hnodup none v).mp h with h2 | ⟨_, h2⟩
      · exact Or.inl ⟨rfl, h2⟩
      · exact Option.noConfusion h2
    · subst hr
      rcases (lastOverride_eq_some_iff c "memory" (recommendMem c) annotations (hmem hc)
        hnodup none v).mp h with h2 | ⟨_, h2⟩
      · exact Or.inr ⟨rfl, h2⟩
      · exact Option.noConfusion h2
  · rintro ⟨hc, ⟨hr, hin⟩ | ⟨hr, hin⟩⟩
    · rw [hr]
      exact (lastOverride_eq_some_iff c "cpu" (recommendCPU c) annotations (hcpu hc)
        hnodup none v).mpr (Or.inl hin)
    · rw [hr]
      exact (lastOverride_eq_some_iff c "memory" (recommendMem c) annotations (hmem hc)
        hnodup none v).mpr (Or.inl hin)

/-- On annotation maps whose keys are all exact recommendation keys or unrelated,
the overrides `GetResourceRequestAnnotations` returns do not depend on the order in
which the entries are visited. -/
theorem GetResourceRequestAnnotations_order_independent_of_exact_keys
    (annotations annotations2 : GoMap String String) (hperm : annotations.Perm annotations2)
    (hnodup : (annotations.map Prod.fst).Nodup)
    (hkeys : ∀ kv ∈ annotations,
      IsRecommendKey kv.1 ∨ ¬ "recommendations".data <:+: kv.1.data)
    (c : String) (r : ResourceName) :
    lookupOverride (GetResourceRequestAnnotations annotations) c r =
      lookupOverride (GetResourceRequestAnnotations annotations2) c r := by
  have hnodup2 : (annotations2.map Prod.fst).Nodup :=
    (List.Perm.nodup_iff (List.Perm.map Prod.fst hperm)).mp hnodup
  have hkeys2 : ∀ kv ∈ annotations2,
      IsRecommendKey kv.1 ∨ ¬ "recommendations".data <:+: kv.1.data :=
    fun kv hkv => hkeys kv ((List.Perm.mem_iff hperm).mpr hkv)
  apply Option.ext
  intro v
  simp only [Option.mem_def]
  rw [lookupOverride_of_exact_keys annotations hnodup hkeys c r v,
    lookupOverride_of_exact_keys annotations2 hnodup2 hkeys2 c r v,
    List.Perm.mem_iff hperm, List.Perm.mem_iff hperm]

end OrderLemmas


section GateClaims

/-- C17, the code at a failing input. The annotation map with the two entries
`web.recommendations.com/cpu: 300` and `team.web.recommendations.com/cpu: 400` has
distinct keys, yet `recommendRegex` resolves both to the cpu override of container
`web`: visited in one order `GetResourceRequestAnnotations` returns `400` for it,
visited in the other order `300`. -/
theorem GetResourceRequestAnnotations_order_dependent :
    exampleAnnotationsColliding.Perm exampleAnnotationsCollidingSwapped ∧
      (exampleAnnotationsColliding.map Prod.fst).Nodup ∧
      lookupOverride (GetResourceRequestAnnotations exampleAnnotationsColliding) "web" "cpu"
        = some "400" ∧
      lookupOverride (GetResourceRequestAnnotations exampleAnnotationsCollidingSwapped)
        "web" "cpu" = some "300" := by
  refine ⟨List.Perm.swap _ _ _, by decide, by decide, by decide⟩

/-- C18. `IsAnnotationsAuto` returns true exactly when both fixed keys
`recommendations.cloudnatix.com/cpu` and `recommendations.cloudnatix.com/memory` are
present with the Auto-mode sentinel as value (the sentinel being a non-empty
string); it returns false when either key is missing or has another value. -/
theorem IsAnnotationsAuto_iff (UpdateModeAuto : String) (hauto : UpdateModeAuto ≠ "")
    (annotations : GoMap String String) :
    Gate.IsAnnotationsAuto UpdateModeAuto annotations = true ↔
      GoMap.lookup annotations Gate.CNatixCPU = some UpdateModeAuto ∧
        GoMap.lookup annotations Gate.CNatixMEM = some UpdateModeAuto := by
  have hcpu : GoMap.lookup (Gate.GetResourceRequestAnnotations annotations) ResourceCPU =
      some (Gate.index annotations Gate.CNatixCPU) := by
    unfold Gate.GetResourceRequestAnnotations
    rw [GoMap.lookup_insert, GoMap.lookup_insert]
    simp [ResourceCPU, ResourceMemory]
  have hmem : GoMap.lookup (Gate.GetResourceRequestAnnotations annotations) ResourceMemory =
      some (Gate.index annotations Gate.CNatixMEM) := by
    unfold Gate.GetResourceRequestAnnotations
    rw [GoMap.lookup_insert]
    simp
  have hindex : ∀ key, Gate.index annotations key = UpdateModeAuto ↔
      GoMap.lookup annotations key = some UpdateModeAuto := by
    intro key
    unfold Gate.index
    cases hl : GoMap.lookup annotations key with
    | none =>
      simp only [Option.getD_none]
      constructor
      · intro h
        exact absurd h.symm hauto
      · intro h
        exact Option.noConfusion h
    | some v => simp
  simp only [Gate.IsAnnotationsAuto, hcpu, hmem, Option.isSome_some, Option.getD_some,
    Bool.true_and, Bool.and_eq_true, decide_eq_true_eq, hindex]

/-- Witness of C18: both fixed keys hold the sentinel `Auto`. -/
theorem IsAnnotationsAuto_iff_witness :
    Gate.IsAnnotationsAuto "Auto"
        [("recommendations.cloudnatix.com/cpu", "Auto"),
         ("recommendations.cloudnatix.com/memory", "Auto")] = true ↔
      GoMap.lookup
          [("recommendations.cloudnatix.com/cpu", "Auto"),
           ("recommendations.cloudnatix.com/memory", "Auto")] Gate.CNatixCPU = some "Auto" ∧
        GoMap.lookup
          [("recommendations.cloudnatix.com/cpu", "Auto"),
           ("recommendations.cloudnatix.com/memory", "Auto")] Gate.CNatixMEM = some "Auto" :=
  IsAnnotationsAuto_iff "Auto" (by decide) _

end GateClaims

/-! ## Agreement of the two per-container annotation functions -/

section AgreementLemmas

theorem matchResource_cases (s : List Char) (g : ResourceName) (h : matchResource s = some g) :
    g = "cpu" ∨ g = "memory" := by
  unfold matchResource at h
  split at h
  · simp only [Option.some.injEq] at h
    exact Or.inl h.symm
  · split at h
    · simp only [Option.some.injEq] at h
      exact Or.inr h.symm
    · exact Option.noConfusion h

theorem matchTail_cases (s : List Char) (g : ResourceName) (h : matchTail s = some g) :
    g = "cpu" ∨ g = "memory" := by
  cases s with
  | nil => simp [matchTail] at h
  | cons x s =>
    simp only [matchTail] at h
    split at h
    · split at h
      · split at h
        · split at h
          · exact matchResource_cases _ g h
          · exact Option.noConfusion h
        · exact Option.noConfusion h
      · exact Option.noConfusion h
    · exact Option.noConfusion h

theorem matchHere_groups (s : List Char) :
    ∀ (g1 : List Char) (g2 : ResourceName), matchHere s = some (g1, g2) →
      g1 ≠ [] ∧ (∀ x ∈ g1, isContainerChar x = true) ∧ (g2 = "cpu" ∨ g2 = "memory") := by
  induction s with
  | nil => intro g1 g2 h; simp [matchHere] at h
  | cons c s ih =>
    intro g1 g2 h
    simp only [matchHere] at h
    split at h
    · rename_i hc
      cases hh : matchHere s with
      | some m =>
        obtain ⟨a, b⟩ := m
        simp only [hh, Option.some.injEq, Prod.mk.injEq] at h
        obtain ⟨h1, h2⟩ := h
        subst h1
        subst h2
        obtain ⟨_, hall, hres⟩ := ih a b hh
        refine ⟨by simp, ?_, hres⟩
        intro x hx
        simp only [List.mem_cons] at hx
        rcases hx with hx | hx
        · rw [hx]; exact hc
        · exact hall x hx
      | none =>
        simp only [hh] at h
        cases ht : matchTail s with
        | none => simp [ht] at h
        | some g =>
          simp only [ht, Option.some.injEq, Prod.mk.injEq] at h
          obtain ⟨h1, h2⟩ := h
          subst h1
          subst h2
          refine ⟨by simp, ?_, matchTail_cases s g ht⟩
          intro x hx
          simp only [List.mem_singleton] at hx
          rw [hx]; exact hc
    · exact Option.noConfusion h

theorem searchFrom_groups (s : List Char) :
    ∀ (g1 : List Char) (g2 : ResourceName), searchFrom s = some (g1, g2) →
      g1 ≠ [] ∧ (∀ x ∈ g1, isContainerChar x = true) ∧ (g2 = "cpu" ∨ g2 = "memory") := by
  induction s with
  | nil => intro g1 g2 h; simp [searchFrom] at h
  | cons c s ih =>
    intro g1 g2 h
    simp only [searchFrom] at h
    cases hh : matchHere (c :: s) with
    | some m =>
      simp only [hh, Option.some.injEq] at h
      subst h
      exact matchHere_groups (c :: s) g1 g2 hh
    | none =>
      simp only [hh] at h
      exact ih g1 g2 h

theorem FindStringSubmatch_groups (key : String) (c : String) (r : ResourceName)
    (h : FindStringSubmatch key = some (c, r)) :
    IsContainerName c ∧ (r = ResourceCPU ∨ r = ResourceMemory) := by
  unfold FindStringSubmatch at h
  cases hs : searchFrom key.data with
  | none => simp [hs] at h
  | some m =>
    obtain ⟨g1, g2⟩ := m
    simp only [hs, Option.some.injEq, Prod.mk.injEq] at h
    obtain ⟨h1, h2⟩ := h
    subst h1
    subst h2
    obtain ⟨hne, hall, hres⟩ := searchFrom_groups key.data g1 g2 hs
    exact ⟨⟨hne, hall⟩, hres⟩

theorem GoMap.mem_insert {K V : Type} [DecidableEq K] (m : GoMap K V) (k : K) (v : V)
    (e : K × V) (h : e ∈ GoMap.insert m k v) : e = (k, v) ∨ e ∈ m := by
  induction m with
  | nil =>
    simp only [GoMap.insert, List.mem_singleton] at h
    exact Or.inl h
  | cons e0 rest ih =>
    obtain ⟨k0, v0⟩ := e0
    by_cases h0 : k0 = k
    · simp only [GoMap.insert, h0, if_true, List.mem_cons] at h
      rcases h with h | h
      · exact Or.inl h
      · exact Or.inr (by simp [h])
    · simp only [GoMap.insert, h0, if_false, List.mem_cons] at h
      rcases h with h | h
      · exact Or.inr (by simp [h])
      · rcases ih h with h1 | h1
        · exact Or.inl h1
        · exact Or.inr (by simp [h1])

theorem GoMap.insert_ne_nil {K V : Type} [DecidableEq K] (m : GoMap K V) (k : K) (v : V) :
    GoMap.insert m k v ≠ [] := by
  cases m with
  | nil => simp [GoMap.insert]
  | cons e0 rest =>
    obtain ⟨k0, v0⟩ := e0
    by_cases h0 : k0 = k
    · simp [GoMap.insert, h0]
    · simp [GoMap.insert, h0]

theorem GoMap.mem_of_lookup {K V : Type} [DecidableEq K] (m : GoMap K V) (k : K) (v : V)
    (h : GoMap.lookup m k = some v) : (k, v) ∈ m := by
  induction m with
  | nil => simp [GoMap.lookup] at h
  | cons e0 rest ih =>
    obtain ⟨k0, v0⟩ := e0
    by_cases h0 : k0 = k
    · simp only [GoMap.lookup, h0, if_true, Option.some.injEq] at h
      simp [h0, h]
    · simp only [GoMap.lookup, h0, if_false] at h
      simp [ih h]

theorem GoMap.insert_insert {K V : Type} [DecidableEq K] (m : GoMap K V) (k : K) (v w : V) :
    GoMap.insert (GoMap.insert m k v) k w = GoMap.insert m k w := by
  induction m with
  | nil => simp [GoMap.insert]
  | cons e0 rest ih =>
    obtain ⟨k0, v0⟩ := e0
    by_cases h0 : k0 = k
    · simp [GoMap.insert, h0]
    · simp [GoMap.insert, h0, ih]

theorem requestedStep_of_match (requested : GoMap String (GoMap ResourceName String))
    (kv : String × String) (c0 : String) (r0 : ResourceName)
    (hf : FindStringSubmatch kv.1 = some (c0, r0)) :
    requestedStep requested kv =
      GoMap.insert requested c0
        (GoMap.insert ((GoMap.lookup requested c0).getD []) r0 kv.2) := by
  unfold requestedStep
  simp only [hf]
  cases hl : GoMap.lookup requested c0 with
  | some inner => simp [hl]
  | none => simp [GoMap.lookup_insert, GoMap.insert_insert]

theorem requestedStep_entries (requested : GoMap String (GoMap ResourceName String))
    (kv : String × String) (hinv : ∀ e ∈ requested, RequestedEntryOk e) :
    ∀ e ∈ requestedStep requested kv, RequestedEntryOk e := by
  intro e he
  cases hf : FindStringSubmatch kv.1 with
  | none =>
    simp only [requestedStep, hf] at he
    exact hinv e he
  | some m =>
    obtain ⟨c0, r0⟩ := m
    obtain ⟨hc0, hr0⟩ := FindStringSubmatch_groups kv.1 c0 r0 hf
    rw [requestedStep_of_match requested kv c0 r0 hf] at he
    rcases GoMap.mem_insert _ _ _ _ he with h | h
    · rw [h]
      refine ⟨hc0, GoMap.insert_ne_nil _ _ _, ?_⟩
      intro x hx
      rcases GoMap.mem_insert _ _ _ _ hx with h1 | h1
      · rw [h1]; exact hr0
      · cases hl : GoMap.lookup requested c0 with
        | none => simp [hl] at h1
        | some inner =>
          simp only [hl, Option.getD_some] at h1
          exact (hinv (c0, inner) (GoMap.mem_of_lookup requested c0 inner hl)).2.2 x h1
    · exact hinv e h

theorem foldl_requestedStep_entries (annotations : GoMap String String) :
    ∀ (requested : GoMap String (GoMap ResourceName String)),
      (∀ e ∈ requested, RequestedEntryOk e) →
      ∀ e ∈ annotations.foldl requestedStep requested, RequestedEntryOk e := by
  induction annotations with
  | nil => intro requested hinv; exact hinv
  | cons kv rest ih =>
    intro requested hinv
    exact ih (requestedStep requested kv) (requestedStep_entries requested kv hinv)

theorem requestedStep_ne_nil (requested : GoMap String (GoMap ResourceName String))
    (kv : String × String)
    (h : requested ≠ [] ∨ (FindStringSubmatch kv.1).isSome = true) :
    requestedStep requested kv ≠ [] := by
  cases hf : FindStringSubmatch kv.1 with
  | none =>
    rcases h with h | h
    · simpa [requestedStep, hf] using h
    · simp [hf] at h
  | some m =>
    obtain ⟨c0, r0⟩ := m
    rw [requestedStep_of_match requested kv c0 r0 hf]
    exact GoMap.insert_ne_nil _ _ _

theorem foldl_requestedStep_ne_nil (annotations : GoMap String String) :
    ∀ (requested : GoMap String (GoMap ResourceName String)),
      (requested ≠ [] ∨ ∃ kv ∈ annotations, (FindStringSubmatch kv.1).isSome = true) →
      annotations.foldl requestedStep requested ≠ [] := by
  induction annotations with
  | nil =>
    intro requested h
    rcases h with h | ⟨kv, hkv, _⟩
    · exact h
    · simp at hkv
  | cons kv rest ih =>
    intro requested h
    simp only [List.foldl_cons]
    rcases h with h | ⟨kv1, hkv1, hm⟩
    · exact ih _ (Or.inl (requestedStep_ne_nil requested kv (Or.inl h)))
    · simp only [List.mem_cons] at hkv1
      rcases hkv1 with h1 | h1
      · subst h1
        exact ih _ (Or.inl (requestedStep_ne_nil requested kv1 (Or.inr hm)))
      · exact ih _ (Or.inr ⟨kv1, h1, hm⟩)

theorem exists_match_of_HasRecommendationAnnotations (annotations : GoMap String String)
    (h : HasRecommendationAnnotations annotations = true) :
    ∃ kv ∈ annotations, (FindStringSubmatch kv.1).isSome = true := by
  induction annotations with
  | nil => simp [HasRecommendationAnnotations] at h
  | cons e rest ih =>
    obtain ⟨k0, v0⟩ := e
    by_cases h0 : MatchString k0 = true
    · exact ⟨(k0, v0), by simp, h0⟩
    · simp only [HasRecommendationAnnotations, h0, if_false] at h
      obtain ⟨kv, hkv, hm⟩ := ih h
      exact ⟨kv, by simp [hkv], hm⟩

end AgreementLemmas

section AgreementClaims

/-- C20. The two per-container annotation functions agree on every annotation map:
`HasRecommendationAnnotations` is true exactly when the map
`GetResourceRequestAnnotations` returns is not empty; and in every entry of that map
the container key is a non-empty string over `[a-z0-9-]`, the inner map is not empty
and every resource key is `cpu` or `memory`. -/
theorem HasRecommendationAnnotations_iff_nonempty (annotations : GoMap String String) :
    (HasRecommendationAnnotations annotations = true ↔
      GetResourceRequestAnnotations annotations ≠ []) ∧
    ∀ e ∈ GetResourceRequestAnnotations annotations,
      IsContainerName e.1 ∧ e.2 ≠ [] ∧ ∀ x ∈ e.2, x.1 = ResourceCPU ∨ x.1 = ResourceMemory := by
  refine ⟨⟨?_, ?_⟩, ?_⟩
  · intro h
    exact foldl_requestedStep_ne_nil annotations []
      (Or.inr (exists_match_of_HasRecommendationAnnotations annotations h))
  · intro hne
    by_contra hhas
    apply hne
    unfold GetResourceRequestAnnotations
    apply foldl_requestedStep_of_no_match
    intro kv hkv
    cases hf : FindStringSubmatch kv.1 with
    | none => rfl
    | some m =>
      exact absurd (HasRecommendationAnnotations_of_match annotations kv hkv (by simp [hf])) hhas
  · intro e he
    exact foldl_requestedStep_entries annotations [] (by intro e he; simp at he) e he

end AgreementClaims

end VPA
